import Mathlib

/-! NetShaper pluggable transport: connection bridging and lifecycle.

A shallow embedding of `cmd/netshaper-bridge/bridge_main.go` (the server) and
`cmd/netshaper-client/client_main.go` (the client).

* Go `string`s are Lean `String`s.  `strings.Contains` compares bytes; both
  needles used by the program are ASCII, and for well-formed UTF-8 text an
  ASCII needle occurs bytewise exactly where it occurs characterwise.
* A Go `error` value is `Option GoError`, `none` being `nil`.
* Informational `log.Printf` lines are not part of the traces; `logErrorf`
  calls are.
-/

namespace NetShaper

/-! ## Strings and errors -/

/-- Whether the character list `s` begins with `sub`. -/
def startsWith : List Char → List Char → Bool
  | _, [] => true
  | [], _ :: _ => false
  | c :: s, d :: sub => c == d && startsWith s sub

/-- Whether `sub` occurs somewhere inside `s`, scanning positions left to right. -/
def containsChars : List Char → List Char → Bool
  | [], sub => startsWith [] sub
  | c :: s, sub => startsWith (c :: s) sub || containsChars s sub

/-- Go `strings.Contains(s, substr)`. -/
def stringsContains (s substr : String) : Bool :=
  containsChars s.data substr.data

/-- A non-nil Go `error`: the text of `Error()` and whether the value is a
`net.Error` whose `Timeout()` is true. -/
structure GoError where
  msg : String
  netTimeout : Bool
deriving DecidableEq

/-- The function `isUseOfClosedNetConnError` (identical in both programs). -/
def isUseOfClosedNetConnError (err : Option GoError) : Bool :=
  match err with
  | none => false
  | some e =>
    stringsContains e.msg "use of closed network connection" ||
      stringsContains e.msg "closing"

/-! ## Connections, observable operations and `io.Copy` -/

/-- One byte of relayed traffic. -/
abbrev Byte := Fin 256

/-- The connection handles a bridge works with. -/
inductive Handle
  | quicConn
  | quicStream
  | torConn
  | socksConn
deriving DecidableEq

/-- The `logErrorf` call sites of the two `handleConnection` functions. -/
inductive ErrSite
  | acceptStream
  | dialORPort
  | copyQuicToTor
  | copyTorToQuic
  | dialQuic
  | openStream
  | grant
  | copySocksToQuic
  | copyQuicToSocks
deriving DecidableEq

/-- The calls a bridge makes on its connections, each named after the Go call.
`close h` is `h.Close()`, `closeWrite h` is `h.CloseWrite()` and
`closeWithError h` is `h.CloseWithError(0, "connection closed")`. -/
inductive Op
  | acceptStream (err : Option GoError)
  | dialTCP (err : Option GoError)
  | dialAddr (err : Option GoError)
  | openStreamSync (err : Option GoError)
  | grant (err : Option GoError)
  | reject
  | write (dst : Handle) (data : List Byte)
  | logError (site : ErrSite) (err : GoError)
  | closeWrite (h : Handle)
  | close (h : Handle)
  | closeWithError (h : Handle)
deriving DecidableEq

/-- How the last `Read` of a source ends: with `io.EOF` or with another error. -/
inductive ReadEnd
  | eof
  | failed (e : GoError)
deriving DecidableEq

/-- What the read side of a connection delivers until it ends: the data of the
`Read` calls that returned a nil error, then the data and the error of the
final `Read`. -/
structure Source where
  reads : List (List Byte)
  last : List Byte
  fin : ReadEnd

/-- Outcome of one `Write` on the destination: everything was accepted, or
`n` bytes were accepted before the write failed with `e`. -/
inductive WriteResult
  | full
  | failed (n : Nat) (e : GoError)

/-- What `io.Copy` did: the data of each `Write` that reached the destination,
and the error it returned. -/
structure CopyResult where
  writes : List (List Byte)
  err : Option GoError

/-- The error `io.Copy` returns once the source has ended: `io.EOF` is not an error. -/
def endErr : ReadEnd → Option GoError
  | .eof => none
  | .failed e => some e

/-- The loop of the Go standard library `io.Copy`: each `Read` that returned
data is followed by one `Write` of that data; a failed `Write` ends the copy
with its error; the end of the source ends the copy with `endErr`.  `k` numbers
the `Write` calls. -/
def ioCopyLoop (wr : Nat → WriteResult) (last : List Byte) (fin : ReadEnd) :
    Nat → List (List Byte) → CopyResult
  | k, [] =>
    if last.length > 0 then
      match wr k with
      | .full => ⟨[last], endErr fin⟩
      | .failed n e => ⟨[last.take n], some e⟩
    else ⟨[], endErr fin⟩
  | k, chunk :: rest =>
    if chunk.length > 0 then
      match wr k with
      | .full =>
        let r := ioCopyLoop wr last fin (k + 1) rest
        ⟨chunk :: r.writes, r.err⟩
      | .failed n e => ⟨[chunk.take n], some e⟩
    else ioCopyLoop wr last fin k rest

/-- Go `io.Copy(dst, src)`, with `wr` the outcomes of the writes on `dst`. -/
def ioCopy (wr : Nat → WriteResult) (src : Source) : CopyResult :=
  ioCopyLoop wr src.last src.fin 0 src.reads

/-- The writes of one `io.Copy` as operations on the destination. -/
def copyOps (dst : Handle) (r : CopyResult) : List Op :=
  r.writes.map (Op.write dst)

/-- The statement `if err != nil && !isUseOfClosedNetConnError(err)` guarding
`logErrorf` in every relay task. -/
def reportOps (site : ErrSite) (err : Option GoError) : List Op :=
  match err with
  | none => []
  | some e => if !isUseOfClosedNetConnError (some e) then [Op.logError site e] else []

/-! ## The relay tasks

Each task is the list of operations of one goroutine; its deferred `wg.Done()`
is executed by the scheduler model below after the last operation. -/

/-- Server, `// QUIC -> Tor`. -/
def serverQuicToTor (r : CopyResult) : List Op :=
  copyOps .torConn r ++ reportOps .copyQuicToTor r.err ++ [Op.closeWrite .torConn]

/-- Server, `// Tor -> QUIC`. -/
def serverTorToQuic (r : CopyResult) : List Op :=
  copyOps .quicStream r ++ reportOps .copyTorToQuic r.err ++ [Op.close .quicStream]

/-- Client, `// SOCKS -> QUIC Stream`; the deferred `stream.Close()` runs when
the function body is over, before the deferred `wg.Done()`. -/
def clientSocksToQuic (r : CopyResult) : List Op :=
  copyOps .quicStream r ++ reportOps .copySocksToQuic r.err ++ [Op.close .quicStream]

/-- Client, `// QUIC Stream -> SOCKS`. -/
def clientQuicToSocks (r : CopyResult) : List Op :=
  copyOps .socksConn r ++ reportOps .copyQuicToSocks r.err

/-! ## `handleConnection` -/

/-- What one call of `handleConnection` does: the operations before the relay
or the early return, the two relay tasks when the relay is reached, and the
deferred calls in the order they run. -/
structure Plan where
  body : List Op
  relay : Option (List Op × List Op)
  deferred : List Op

/-- Everything the server bridge meets: the outcome of `AcceptStream` and of
`DialTCP`, and what reads and writes on the two connections return. -/
structure ServerEnv where
  acceptStream : Option GoError
  dialTCP : Option GoError
  streamSrc : Source
  torSrc : Source
  torWrites : Nat → WriteResult
  streamWrites : Nat → WriteResult

/-- The server `handleConnection(conn, orPort)`. -/
def serverHandleConnection (env : ServerEnv) : Plan :=
  match env.acceptStream with
  | some e =>
    { body := [.acceptStream (some e), .logError .acceptStream e]
      relay := none
      deferred := [.closeWithError .quicConn] }
  | none =>
    match env.dialTCP with
    | some e =>
      { body := [.acceptStream none, .dialTCP (some e), .logError .dialORPort e]
        relay := none
        deferred := [.close .quicStream, .closeWithError .quicConn] }
    | none =>
      { body := [.acceptStream none, .dialTCP none]
        relay := some (serverQuicToTor (ioCopy env.torWrites env.streamSrc),
          serverTorToQuic (ioCopy env.streamWrites env.torSrc))
        deferred := [.close .torConn, .close .quicStream, .closeWithError .quicConn] }

/-- Everything the client bridge meets. -/
structure ClientEnv where
  dialAddr : Option GoError
  openStreamSync : Option GoError
  grant : Option GoError
  socksSrc : Source
  streamSrc : Source
  streamWrites : Nat → WriteResult
  socksWrites : Nat → WriteResult

/-- The client `handleConnection(conn)`. -/
def clientHandleConnection (env : ClientEnv) : Plan :=
  match env.dialAddr with
  | some e =>
    { body := [.dialAddr (some e), .logError .dialQuic e, .reject]
      relay := none
      deferred := [.close .socksConn] }
  | none =>
    match env.openStreamSync with
    | some e =>
      { body := [.dialAddr none, .openStreamSync (some e), .logError .openStream e, .reject]
        relay := none
        deferred := [.closeWithError .quicConn, .close .socksConn] }
    | none =>
      match env.grant with
      | some e =>
        { body := [.dialAddr none, .openStreamSync none, .grant (some e), .logError .grant e]
          relay := none
          deferred := [.closeWithError .quicConn, .close .socksConn] }
      | none =>
        { body := [.dialAddr none, .openStreamSync none, .grant none]
          relay := some (clientSocksToQuic (ioCopy env.streamWrites env.socksSrc),
            clientQuicToSocks (ioCopy env.socksWrites env.streamSrc))
          deferred := [.closeWithError .quicConn, .close .socksConn] }

/-- All operations of a plan, with the tasks one after the other. -/
def Plan.allOps (p : Plan) : List Op :=
  p.body ++ (match p.relay with | none => [] | some r => r.1 ++ r.2) ++ p.deferred

/-! ## Scheduler model of one bridge

`handleConnection` and its two goroutines are three threads; an execution is a
list of thread choices.  `wg` is the counter of the `sync.WaitGroup`. -/

/-- State of one relay goroutine. -/
inductive TaskState
  | notStarted
  | running (todo : List Op)
  | finished
deriving DecidableEq

/-- Control point of `handleConnection` itself. -/
inductive MainPc
  | body (todo : List Op)
  | addWg
  | spawnAB
  | spawnBA
  | waiting
  | unwinding (todo : List Op)
  | returned
deriving DecidableEq

/-- State of one bridge. -/
structure BridgeState where
  pc : MainPc
  wg : Nat
  ab : TaskState
  ba : TaskState
  trace : List Op
deriving DecidableEq

/-- The three threads of a bridge. -/
inductive Tid
  | main
  | ab
  | ba
deriving DecidableEq

/-- A goroutine executes its next operation, or, when none is left, its
deferred `wg.Done()`. -/
def stepTask (t : TaskState) (wg : Nat) (trace : List Op) :
    Option (TaskState × Nat × List Op) :=
  match t with
  | .running (o :: rest) => some (.running rest, wg, trace ++ [o])
  | .running [] => if wg = 0 then none else some (.finished, wg - 1, trace)
  | _ => none

/-- One step of thread `t`; `none` when the thread is blocked or over. -/
def step (p : Plan) (s : BridgeState) : Tid → Option BridgeState
  | .main =>
    match s.pc with
    | .body (o :: rest) => some { s with pc := .body rest, trace := s.trace ++ [o] }
    | .body [] =>
      match p.relay with
      | none => some { s with pc := .unwinding p.deferred }
      | some _ => some { s with pc := .addWg }
    | .addWg => some { s with pc := .spawnAB, wg := s.wg + 2 }
    | .spawnAB =>
      match p.relay with
      | none => none
      | some r => some { s with pc := .spawnBA, ab := .running r.1 }
    | .spawnBA =>
      match p.relay with
      | none => none
      | some r => some { s with pc := .waiting, ba := .running r.2 }
    | .waiting => if s.wg = 0 then some { s with pc := .unwinding p.deferred } else none
    | .unwinding (o :: rest) => some { s with pc := .unwinding rest, trace := s.trace ++ [o] }
    | .unwinding [] => some { s with pc := .returned }
    | .returned => none
  | .ab =>
    match stepTask s.ab s.wg s.trace with
    | none => none
    | some (t, wg, tr) => some { s with ab := t, wg := wg, trace := tr }
  | .ba =>
    match stepTask s.ba s.wg s.trace with
    | none => none
    | some (t, wg, tr) => some { s with ba := t, wg := wg, trace := tr }

/-- The state in which `handleConnection` is entered. -/
def start (p : Plan) : BridgeState :=
  { pc := .body p.body, wg := 0, ab := .notStarted, ba := .notStarted, trace := [] }

/-- Run a schedule; `none` if it asks a blocked or finished thread to move. -/
def run (p : Plan) (s : BridgeState) : List Tid → Option BridgeState
  | [] => some s
  | t :: sched =>
    match step p s t with
    | none => none
    | some s1 => run p s1 sched

/-! ## Accept loops -/

/-- Why an accept call failed: the endpoint is closed, or a single incoming
attempt failed while the endpoint is still open. -/
inductive AcceptCause
  | endpointClosed
  | transient
deriving DecidableEq

/-- What one call of the accept primitive returns: a connection (numbered), or
an error together with its cause. -/
inductive AcceptResult
  | conn (id : Nat)
  | failed (cause : AcceptCause) (err : GoError)
deriving DecidableEq

/-- What an accept loop does. -/
inductive LoopOp
  | acceptCall
  | spawnHandler (id : Nat)
  | logError (err : GoError)
deriving DecidableEq

/-- An accept loop run against the accept results it will get: its operations,
and whether the loop has ended (`false`: it is blocked in the next accept). -/
structure LoopRun where
  trace : List LoopOp
  stopped : Bool
deriving DecidableEq

/-- The server `acceptLoop(ln, orPort)`: `ln.Accept`, on error `logErrorf` and
`break`, otherwise `go handleConnection`. -/
def serverAcceptLoop : List AcceptResult → LoopRun
  | [] => ⟨[.acceptCall], false⟩
  | .conn c :: rest =>
    let r := serverAcceptLoop rest
    ⟨.acceptCall :: .spawnHandler c :: r.trace, r.stopped⟩
  | .failed _ e :: _ => ⟨[.acceptCall, .logError e], true⟩

/-- The client `acceptLoop(ln)`: `ln.AcceptSocks`, on a `net.Error` with
`Timeout()` `continue`, on any other error `logErrorf` and `break`, otherwise
`go handleConnection`. -/
def clientAcceptLoop : List AcceptResult → LoopRun
  | [] => ⟨[.acceptCall], false⟩
  | .conn c :: rest =>
    let r := clientAcceptLoop rest
    ⟨.acceptCall :: .spawnHandler c :: r.trace, r.stopped⟩
  | .failed _ e :: rest =>
    if e.netTimeout then
      let r := clientAcceptLoop rest
      ⟨.acceptCall :: r.trace, r.stopped⟩
    else ⟨[.acceptCall, .logError e], true⟩

/-- How often the loop called accept. -/
def acceptCalls (r : LoopRun) : Nat :=
  r.trace.count .acceptCall

/-! ## Startup of `main`: binding and registration -/

/-- The constant `transportName`. -/
def transportName : String := "netshaper"

/-- One entry of `ptInfo.Bindaddrs`. -/
structure Bindaddr where
  MethodName : String
  Addr : String
deriving DecidableEq

/-- A bound listener, identified by the address `ln.Addr()` reports. -/
structure Listener where
  addr : String
deriving DecidableEq

/-- Outcome of `quic.ListenAddr` or `pt.ListenSocks`. -/
inductive ListenResult
  | ok (ln : Listener)
  | failed (err : GoError)
deriving DecidableEq

/-- What the startup loop of `main` does: the goptlib announcements, and
`goAcceptLoop ln` for `wg.Add(1)` followed by the goroutine running
`acceptLoop` on `ln`. -/
inductive PtOp
  | smethod (name addr : String)
  | smethodError (name msg : String)
  | smethodsDone
  | cmethod (name proxyKind addr : String)
  | cmethodError (name msg : String)
  | cmethodsDone
  | goAcceptLoop (ln : Listener)
deriving DecidableEq

/-- The variables of `main` during startup. -/
structure Startup where
  trace : List PtOp
  wg : Nat
  listeners : List Listener
deriving DecidableEq

/-- State of `main` before the startup loop. -/
def Startup.empty : Startup := ⟨[], 0, []⟩

/-- One iteration of the server loop `for _, bindInfo := range ptInfo.Bindaddrs`,
with the outcome `quic.ListenAddr` has if it is called. -/
def serverBindStep (st : Startup) (b : Bindaddr × ListenResult) : Startup :=
  if b.1.MethodName != transportName then st
  else
    match b.2 with
    | .failed err =>
      { st with trace := st.trace ++
          [.smethodError b.1.MethodName ("failed to listen on QUIC: " ++ err.msg)] }
    | .ok ln =>
      { trace := st.trace ++ [.smethod b.1.MethodName ln.addr, .goAcceptLoop ln]
        wg := st.wg + 1
        listeners := st.listeners ++ [ln] }

/-- The server startup loop from a given state. -/
def serverBindLoop (st : Startup) (entries : List (Bindaddr × ListenResult)) : Startup :=
  entries.foldl serverBindStep st

/-- Server `main` up to and including `pt.SmethodsDone()`. -/
def serverStartup (entries : List (Bindaddr × ListenResult)) : Startup :=
  let st := serverBindLoop Startup.empty entries
  { st with trace := st.trace ++ [.smethodsDone] }

/-- One iteration of the client loop `for _, methodName := range ptInfo.MethodNames`,
with the outcome `pt.ListenSocks` has if it is called. -/
def clientBindStep (st : Startup) (m : String × ListenResult) : Startup :=
  if m.1 != transportName then st
  else
    match m.2 with
    | .failed err => { st with trace := st.trace ++ [.cmethodError m.1 err.msg] }
    | .ok ln =>
      { trace := st.trace ++ [.cmethod m.1 "socks5" ln.addr, .goAcceptLoop ln]
        wg := st.wg + 1
        listeners := st.listeners ++ [ln] }

/-- The client startup loop from a given state. -/
def clientBindLoop (st : Startup) (entries : List (String × ListenResult)) : Startup :=
  entries.foldl clientBindStep st

/-- Client `main` up to and including `pt.CmethodsDone()`. -/
def clientStartup (entries : List (String × ListenResult)) : Startup :=
  let st := clientBindLoop Startup.empty entries
  { st with trace := st.trace ++ [.cmethodsDone] }

/-- Whether an operation is a registration announcement for one method. -/
def PtOp.isAnnouncement : PtOp → Bool
  | .smethod _ _ => true
  | .smethodError _ _ => true
  | .cmethod _ _ _ => true
  | .cmethodError _ _ => true
  | _ => false

/-- Whether an operation is the all-done announcement. -/
def PtOp.isDone : PtOp → Bool
  | .smethodsDone => true
  | .cmethodsDone => true
  | _ => false

/-- The registration messages of a trace, in order. -/
def registration (tr : List PtOp) : List PtOp :=
  tr.filter (fun o => o.isAnnouncement || o.isDone)

/-- The announcement the server makes for an entry it binds. -/
def serverAnnounce (b : Bindaddr × ListenResult) : PtOp :=
  match b.2 with
  | .ok ln => .smethod b.1.MethodName ln.addr
  | .failed err => .smethodError b.1.MethodName ("failed to listen on QUIC: " ++ err.msg)

/-- The announcement the client makes for a method it listens for. -/
def clientAnnounce (m : String × ListenResult) : PtOp :=
  match m.2 with
  | .ok ln => .cmethod m.1 "socks5" ln.addr
  | .failed err => .cmethodError m.1 err.msg

/-! ## Shutdown of `main`

After startup `main` blocks on the signal channel, closes the listeners in
order and waits on its wait group.  The accept loops and the bridges they
spawn run concurrently. -/

/-- Which program runs. -/
inductive Role
  | server
  | client
deriving DecidableEq

/-- Control point of `main` after startup. -/
inductive MainPhase
  | awaitSignal
  | closing
  | waiting
  | exited
deriving DecidableEq

/-- State of the process: `closed` listeners (the first `closed` of the list)
have been closed, `loopRunning` tells which accept loops have not returned,
`bridges` counts the `handleConnection` goroutines that have not returned. -/
structure ProcState where
  phase : MainPhase
  wg : Nat
  closed : Nat
  loopRunning : List Bool
  bridges : Nat
deriving DecidableEq

/-- What can happen next in the process. -/
inductive Event
  | signal
  | mainStep
  | accepted (i : Nat)
  | acceptFailed (i : Nat) (err : GoError)
  | bridgeReturned
deriving DecidableEq

/-- The process right after startup, with `n` listeners bound: the wait group
counts the `n` accept loops. -/
def procInit (n : Nat) : ProcState :=
  { phase := .awaitSignal, wg := n, closed := 0, loopRunning := List.replicate n true,
    bridges := 0 }

/-- One event of the process; `none` when the event cannot happen in `s`.
`accepted i`: the accept call of loop `i` returns a connection and the loop
starts `handleConnection` for it; `acceptFailed i err`: that call returns
`err`.  Which of the two an accept call returns is up to the accept primitive;
the loop asks nothing about its listener. -/
def procStep (role : Role) (s : ProcState) : Event → Option ProcState
  | .signal =>
    match s.phase with
    | .awaitSignal => some { s with phase := .closing }
    | _ => none
  | .mainStep =>
    match s.phase with
    | .awaitSignal => none
    | .closing =>
      if s.closed < s.loopRunning.length then some { s with closed := s.closed + 1 }
      else some { s with phase := .waiting }
    | .waiting => if s.wg = 0 then some { s with phase := .exited } else none
    | .exited => none
  | .accepted i =>
    if s.phase != .exited && s.loopRunning[i]? == some true then
      some { s with bridges := s.bridges + 1 }
    else none
  | .acceptFailed i err =>
    if s.phase != .exited && s.loopRunning[i]? == some true then
      match role with
      | .server =>
        if s.wg = 0 then none
        else some { s with loopRunning := s.loopRunning.set i false, wg := s.wg - 1 }
      | .client =>
        if err.netTimeout then some s
        else if s.wg = 0 then none
        else some { s with loopRunning := s.loopRunning.set i false, wg := s.wg - 1 }
    else none
  | .bridgeReturned =>
    if s.phase != .exited && 0 < s.bridges then some { s with bridges := s.bridges - 1 }
    else none

/-- Run a list of events. -/
def procRun (role : Role) (s : ProcState) : List Event → Option ProcState
  | [] => some s
  | e :: es =>
    match procStep role s e with
    | none => none
    | some s1 => procRun role s1 es

/-! ## What a trace writes -/

/-- All bytes a source delivers before it ends. -/
def Source.bytes (src : Source) : List Byte :=
  src.reads.flatten ++ src.last

/-- The bytes a list of operations writes to connection `h`, in order. -/
def written (h : Handle) : List Op → List Byte
  | [] => []
  | .write d data :: rest => if d = h then data ++ written h rest else written h rest
  | _ :: rest => written h rest

/-! ## What the close calls mean

`net.TCPConn.CloseWrite` shuts down the writing side of a TCP connection.
`quic.Stream.Close` closes the send direction of the stream only.  `Close` on
a `net.Conn` (the Tor connection, the SOCKS connection) closes the connection.
`quic.Connection.CloseWithError` closes the QUIC connection, and with it every
stream of that connection. -/

/-- The connection whose write side the call half-closes, if it is a half-close. -/
def halfCloses : Op → Option Handle
  | .closeWrite h => some h
  | .close .quicStream => some .quicStream
  | _ => none

/-- The connection the call closes in full, if it is a full close issued on
that connection. -/
def fullCloses : Op → Option Handle
  | .close .torConn => some .torConn
  | .close .socksConn => some .socksConn
  | .closeWithError h => some h
  | _ => none

/-- Whether connection `h` is closed once the calls of `tr` have been made:
a full close was issued on it, or it is the QUIC stream and its connection was
closed. -/
def closedAfter (tr : List Op) (h : Handle) : Bool :=
  tr.any (fun o => fullCloses o == some h) ||
    (h == .quicStream && tr.contains (.closeWithError .quicConn))

/-- The handles the server `handleConnection` has accepted or opened. -/
def serverOpened (env : ServerEnv) : List Handle :=
  match env.acceptStream with
  | some _ => [.quicConn]
  | none =>
    match env.dialTCP with
    | some _ => [.quicConn, .quicStream]
    | none => [.quicConn, .quicStream, .torConn]

/-- The handles the client `handleConnection` has accepted or opened. -/
def clientOpened (env : ClientEnv) : List Handle :=
  match env.dialAddr with
  | some _ => [.socksConn]
  | none =>
    match env.openStreamSync with
    | some _ => [.socksConn, .quicConn]
    | none => [.socksConn, .quicConn, .quicStream]

/-- What an accept loop does for a run of accepted connections: one accept
call and one handler goroutine per connection. -/
def acceptedOps : List Nat → List LoopOp
  | [] => []
  | c :: cs => .acceptCall :: .spawnHandler c :: acceptedOps cs

/-! ## Invariants of the bridge scheduler -/

/-- What a goroutine still owes the wait group. -/
def TaskState.live : TaskState → Nat
  | .finished => 0
  | _ => 1

/-- The wait group counter in terms of the control points. -/
def WgInv (p : Plan) (s : BridgeState) : Prop :=
  match s.pc with
  | .body _ => s.wg = 0 ∧ s.ab = .notStarted ∧ s.ba = .notStarted
  | .addWg => s.wg = 0 ∧ s.ab = .notStarted ∧ s.ba = .notStarted ∧ p.relay ≠ none
  | .spawnAB => s.wg = 2 ∧ s.ab = .notStarted ∧ s.ba = .notStarted ∧ p.relay ≠ none
  | .spawnBA => s.wg = s.ab.live + 1 ∧ s.ab ≠ .notStarted ∧ s.ba = .notStarted ∧ p.relay ≠ none
  | .waiting => s.wg = s.ab.live + s.ba.live ∧ s.ab ≠ .notStarted ∧ s.ba ≠ .notStarted ∧
      p.relay ≠ none
  | .unwinding _ => s.wg = 0 ∧
      ((s.ab = .notStarted ∧ s.ba = .notStarted ∧ p.relay = none) ∨
        (s.ab = .finished ∧ s.ba = .finished ∧ p.relay ≠ none))
  | .returned => s.wg = 0 ∧
      ((s.ab = .notStarted ∧ s.ba = .notStarted ∧ p.relay = none) ∨
        (s.ab = .finished ∧ s.ba = .finished ∧ p.relay ≠ none))

/-- The operations `handleConnection` itself has still to execute. -/
def pendingMain (p : Plan) : MainPc → List Op
  | .body todo => todo ++ p.deferred
  | .addWg => p.deferred
  | .spawnAB => p.deferred
  | .spawnBA => p.deferred
  | .waiting => p.deferred
  | .unwinding todo => todo
  | .returned => []

/-- The operations a goroutine with program `prog` has still to execute. -/
def pendingTask (prog : List Op) : TaskState → List Op
  | .notStarted => prog
  | .running todo => todo
  | .finished => []

/-- The program of the first relay task. -/
def Plan.progAB (p : Plan) : List Op :=
  match p.relay with
  | none => []
  | some r => r.1

/-- The program of the second relay task. -/
def Plan.progBA (p : Plan) : List Op :=
  match p.relay with
  | none => []
  | some r => r.2

/-- Every operation of the plan is either in the trace or still pending, with
its multiplicity. -/
def CountInv (p : Plan) (s : BridgeState) : Prop :=
  ∀ o : Op, s.trace.count o + (pendingMain p s.pc).count o +
    (pendingTask p.progAB s.ab).count o + (pendingTask p.progBA s.ba).count o =
      p.allOps.count o

/-- What the accept loops and `main` guarantee in every reachable state of a
process started with `n` listeners. -/
def ProcInv (n : Nat) (s : ProcState) : Prop :=
  s.loopRunning.length = n ∧ s.wg = s.loopRunning.count true ∧ s.closed ≤ n ∧
    (s.phase = .awaitSignal → s.closed = 0) ∧
    (s.phase = .waiting ∨ s.phase = .exited → s.closed = n) ∧
    (s.phase = .exited → s.wg = 0)

/-! ## Sample inputs -/

/-- A destination that accepts every write in full. -/
def healthy : Nat → WriteResult := fun _ => .full

/-- A server bridge that relays three bytes one way and one byte the other. -/
def sampleServerEnv : ServerEnv :=
  { acceptStream := none
    dialTCP := none
    streamSrc := ⟨[[1, 2]], [3], .eof⟩
    torSrc := ⟨[[4]], [], .eof⟩
    torWrites := healthy
    streamWrites := healthy }

/-- A schedule of the sample server bridge in which Tor to QUIC finishes
first, up to the point where `handleConnection` stands at its wait. -/
def sampleServerSchedToWait : List Tid :=
  [.main, .main, .main, .main, .main, .main, .ba, .ba, .ba, .ab, .ab, .ab, .ab]

/-- The state the sample server bridge is in after `sampleServerSchedToWait`. -/
def sampleServerAtWait : BridgeState :=
  { pc := .waiting
    wg := 0
    ab := .finished
    ba := .finished
    trace := [.acceptStream none, .dialTCP none, .write .quicStream [4], .close .quicStream,
      .write .torConn [1, 2], .write .torConn [3], .closeWrite .torConn] }

/-- The full schedule of the sample server bridge. -/
def sampleServerSched : List Tid :=
  sampleServerSchedToWait ++ [.main, .main, .main, .main, .main]

/-- The sample server bridge after `handleConnection` has returned. -/
def sampleServerReturned : BridgeState :=
  { pc := .returned
    wg := 0
    ab := .finished
    ba := .finished
    trace := [.acceptStream none, .dialTCP none, .write .quicStream [4], .close .quicStream,
      .write .torConn [1, 2], .write .torConn [3], .closeWrite .torConn,
      .close .torConn, .close .quicStream, .closeWithError .quicConn] }

/-- A client bridge that relays two bytes one way and two bytes the other. -/
def sampleClientEnv : ClientEnv :=
  { dialAddr := none
    openStreamSync := none
    grant := none
    socksSrc := ⟨[[5], [6]], [], .eof⟩
    streamSrc := ⟨[], [7, 8], .eof⟩
    streamWrites := healthy
    socksWrites := healthy }

/-- A client bridge whose QUIC dial fails. -/
def dialFailEnv : ClientEnv :=
  { sampleClientEnv with dialAddr := some ⟨"timeout: no recent network activity", true⟩ }

/-- The client bridge of `dialFailEnv` after `handleConnection` has returned. -/
def dialFailReturned : BridgeState :=
  { pc := .returned
    wg := 0
    ab := .notStarted
    ba := .notStarted
    trace := [.dialAddr (some ⟨"timeout: no recent network activity", true⟩),
      .logError .dialQuic ⟨"timeout: no recent network activity", true⟩, .reject,
      .close .socksConn] }

/-- A client bridge whose `conn.Grant` fails after the stream was opened. -/
def grantFailEnv : ClientEnv :=
  { sampleClientEnv with grant := some ⟨"write tcp 127.0.0.1: broken pipe", false⟩ }

/-- The client bridge of `grantFailEnv` after `handleConnection` has returned. -/
def grantFailReturned : BridgeState :=
  { pc := .returned
    wg := 0
    ab := .notStarted
    ba := .notStarted
    trace := [.dialAddr none, .openStreamSync none,
      .grant (some ⟨"write tcp 127.0.0.1: broken pipe", false⟩),
      .logError .grant ⟨"write tcp 127.0.0.1: broken pipe", false⟩,
      .closeWithError .quicConn, .close .socksConn] }

/-- A failed incoming attempt on an open endpoint, not a timeout. -/
def badHandshake : GoError := ⟨"malformed incoming attempt", false⟩

/-- A timeout reported by the accept primitive. -/
def acceptTimeout : GoError := ⟨"accept tcp 127.0.0.1:0: i/o timeout", true⟩

/-- The error of a bind on an address that is in use. -/
def addrInUse : GoError := ⟨"listen udp 0.0.0.0:443: bind: address already in use", false⟩

/-- The error an accept call returns once its listener is closed. -/
def listenerClosed : GoError := ⟨"quic: server closed", false⟩

/-- One listener; a connection is accepted and its bridge starts; the signal
arrives; `main` closes the listener; the accept loop gets the closed error and
returns; `main` passes its wait. -/
def sampleShutdown : List Event :=
  [.accepted 0, .signal, .mainStep, .mainStep, .acceptFailed 0 listenerClosed, .mainStep]

/-! # Theorems -/

/-! ### Facts about `strings.Contains` -/

theorem startsWith_iff (s sub : List Char) :
    startsWith s sub = true ↔ ∃ post, s = sub ++ post := by
  induction sub generalizing s with
  | nil => simp [startsWith]
  | cons d sub ih =>
    cases s with
    | nil => simp [startsWith]
    | cons c s =>
      simp only [startsWith, Bool.and_eq_true, beq_iff_eq, ih, List.cons_append,
        List.cons.injEq]
      constructor
      · rintro ⟨rfl, post, rfl⟩
        exact ⟨post, rfl, rfl⟩
      · rintro ⟨post, rfl, rfl⟩
        exact ⟨rfl, post, rfl⟩

theorem containsChars_iff (s sub : List Char) :
    containsChars s sub = true ↔ ∃ pre post, s = pre ++ sub ++ post := by
  induction s with
  | nil =>
    simp only [containsChars, startsWith_iff]
    constructor
    · rintro ⟨post, h⟩
      exact ⟨[], post, by simpa using h⟩
    · rintro ⟨pre, post, h⟩
      have h1 : pre ++ sub ++ post = [] := h.symm
      simp only [List.append_eq_nil] at h1
      obtain ⟨⟨-, rfl⟩, rfl⟩ := h1
      exact ⟨[], rfl⟩
  | cons c s ih =>
    simp only [containsChars, Bool.or_eq_true, startsWith_iff, ih]
    constructor
    · rintro (⟨post, h⟩ | ⟨pre, post, h⟩)
      · exact ⟨[], post, by simpa using h⟩
      · exact ⟨c :: pre, post, by simp [h]⟩
    · rintro ⟨pre, post, h⟩
      cases pre with
      | nil => exact Or.inl ⟨post, by simpa using h⟩
      | cons p pre =>
        simp only [List.cons_append, List.cons.injEq] at h
        exact Or.inr ⟨pre, post, h.2⟩

theorem stringsContains_iff (s sub : String) :
    stringsContains s sub = true ↔ ∃ pre post : String, s = pre ++ sub ++ post := by
  unfold stringsContains
  rw [containsChars_iff]
  constructor
  · rintro ⟨pre, post, h⟩
    refine ⟨⟨pre⟩, ⟨post⟩, ?_⟩
    apply String.ext
    simpa using h
  · rintro ⟨pre, post, h⟩
    exact ⟨pre.data, post.data, by simp [h]⟩

/-! ## Error classification (C1) -/

theorem mem_reportOps (site s : ErrSite) (err : Option GoError) (e : GoError) :
    Op.logError s e ∈ reportOps site err ↔
      s = site ∧ err = some e ∧ isUseOfClosedNetConnError err = false := by
  cases err with
  | none => simp [reportOps]
  | some e1 =>
    by_cases h : isUseOfClosedNetConnError (some e1) = true
    · simp [reportOps, h]
    · simp only [Bool.not_eq_true] at h
      simp only [reportOps, h, Bool.not_false, if_true, List.mem_singleton, Op.logError.injEq,
        Option.some.injEq, and_true]
      constructor
      · rintro ⟨rfl, rfl⟩
        exact ⟨rfl, rfl⟩
      · rintro ⟨rfl, rfl⟩
        exact ⟨rfl, rfl⟩

theorem logError_not_mem_copyOps (dst : Handle) (r : CopyResult) (s : ErrSite) (e : GoError) :
    Op.logError s e ∉ copyOps dst r := by
  simp [copyOps]

theorem isUseOfClosedNetConnError_iff (err : Option GoError) :
    isUseOfClosedNetConnError err = true ↔
      ∃ e, err = some e ∧
        ((∃ pre post : String, e.msg = pre ++ "use of closed network connection" ++ post) ∨
          (∃ pre post : String, e.msg = pre ++ "closing" ++ post)) := by
  cases err with
  | none => simp [isUseOfClosedNetConnError]
  | some e =>
    simp only [isUseOfClosedNetConnError, Bool.or_eq_true, stringsContains_iff,
      Option.some.injEq, exists_eq_left']

/-- C1: in each of the four relay tasks (server QUIC to Tor and Tor to QUIC,
client SOCKS to QUIC and QUIC to SOCKS) `logErrorf` is called for the error of
the copy exactly when that error is non-nil and `isUseOfClosedNetConnError` is
false for it, and for nothing else; `isUseOfClosedNetConnError` is true exactly
for a non-nil error whose message contains "use of closed network connection"
or "closing", so it is false for nil. -/
theorem C1_copy_error_reported_iff_not_closed (r : CopyResult) (s : ErrSite) (e : GoError) :
    (Op.logError s e ∈ serverQuicToTor r ↔
        s = .copyQuicToTor ∧ r.err = some e ∧ isUseOfClosedNetConnError r.err = false) ∧
      (Op.logError s e ∈ serverTorToQuic r ↔
        s = .copyTorToQuic ∧ r.err = some e ∧ isUseOfClosedNetConnError r.err = false) ∧
      (Op.logError s e ∈ clientSocksToQuic r ↔
        s = .copySocksToQuic ∧ r.err = some e ∧ isUseOfClosedNetConnError r.err = false) ∧
      (Op.logError s e ∈ clientQuicToSocks r ↔
        s = .copyQuicToSocks ∧ r.err = some e ∧ isUseOfClosedNetConnError r.err = false) ∧
      (∀ err : Option GoError, isUseOfClosedNetConnError err = true ↔
        ∃ e1, err = some e1 ∧
          ((∃ pre post : String,
              e1.msg = pre ++ "use of closed network connection" ++ post) ∨
            (∃ pre post : String, e1.msg = pre ++ "closing" ++ post))) ∧
      isUseOfClosedNetConnError none = false := by
  refine ⟨?_, ?_, ?_, ?_, isUseOfClosedNetConnError_iff, rfl⟩
  · simp [serverQuicToTor, mem_reportOps, logError_not_mem_copyOps]
  · simp [serverTorToQuic, mem_reportOps, logError_not_mem_copyOps]
  · simp [clientSocksToQuic, mem_reportOps, logError_not_mem_copyOps]
  · simp [clientQuicToSocks, mem_reportOps, logError_not_mem_copyOps]

example : isUseOfClosedNetConnError (some ⟨"connection reset by peer", false⟩) = false := by decide

/-! ## The wait group of a bridge (C4) -/

theorem wgInv_start (p : Plan) : WgInv p (start p) := by
  simp [WgInv, start]

theorem wgInv_step {p : Plan} {s s1 : BridgeState} {t : Tid}
    (h : WgInv p s) (hs : step p s t = some s1) : WgInv p s1 := by
  obtain ⟨pc, wg, ab, ba, tr⟩ := s
  cases t with
  | main =>
    cases pc with
    | body todo =>
      cases todo with
      | nil =>
        cases hr : p.relay with
        | none =>
          simp only [step, hr, Option.some.injEq] at hs
          subst hs
          simp_all [WgInv]
        | some r =>
          simp only [step, hr, Option.some.injEq] at hs
          subst hs
          simp_all [WgInv]
      | cons o rest =>
        simp only [step, Option.some.injEq] at hs
        subst hs
        simp_all [WgInv]
    | addWg =>
      simp only [step, Option.some.injEq] at hs
      subst hs
      simp_all [WgInv]
    | spawnAB =>
      cases hr : p.relay with
      | none => simp [step, hr] at hs
      | some r =>
        simp only [step, hr, Option.some.injEq] at hs
        subst hs
        simp_all [WgInv, TaskState.live]
    | spawnBA =>
      cases hr : p.relay with
      | none => simp [step, hr] at hs
      | some r =>
        simp only [step, hr, Option.some.injEq] at hs
        subst hs
        simp_all [WgInv, TaskState.live]
    | waiting =>
      by_cases hw : wg = 0
      · simp only [step, hw, if_true, Option.some.injEq] at hs
        subst hs
        cases ab <;> cases ba <;> simp_all [WgInv, TaskState.live]
      · simp [step, hw] at hs
    | unwinding todo =>
      cases todo with
      | nil =>
        simp only [step, Option.some.injEq] at hs
        subst hs
        simp_all [WgInv]
      | cons o rest =>
        simp only [step, Option.some.injEq] at hs
        subst hs
        simp_all [WgInv]
    | returned => simp [step] at hs
  | ab =>
    cases ab with
    | notStarted => simp [step, stepTask] at hs
    | finished => simp [step, stepTask] at hs
    | running todo =>
      cases todo with
      | cons o rest =>
        simp only [step, stepTask, Option.some.injEq] at hs
        subst hs
        cases pc <;> simp_all [WgInv, TaskState.live]
      | nil =>
        by_cases hw : wg = 0
        · simp [step, stepTask, hw] at hs
        · simp only [step, stepTask, hw, if_false, Option.some.injEq] at hs
          subst hs
          cases pc <;> simp_all [WgInv, TaskState.live]
  | ba =>
    cases ba with
    | notStarted => simp [step, stepTask] at hs
    | finished => simp [step, stepTask] at hs
    | running todo =>
      cases todo with
      | cons o rest =>
        simp only [step, stepTask, Option.some.injEq] at hs
        subst hs
        cases pc <;> simp_all [WgInv, TaskState.live]
      | nil =>
        by_cases hw : wg = 0
        · simp [step, stepTask, hw] at hs
        · simp only [step, stepTask, hw, if_false, Option.some.injEq] at hs
          subst hs
          cases pc <;> simp_all [WgInv, TaskState.live]

theorem wgInv_run {p : Plan} {sched : List Tid} {s s1 : BridgeState}
    (h : WgInv p s) (hr : run p s sched = some s1) : WgInv p s1 := by
  induction sched generalizing s with
  | nil =>
    simp only [run, Option.some.injEq] at hr
    subst hr
    exact h
  | cons t sched ih =>
    simp only [run] at hr
    cases hs : step p s t with
    | none => simp [hs] at hr
    | some s2 =>
      simp only [hs] at hr
      exact ih (wgInv_step h hs) hr

/-! ## Every operation of the plan is executed exactly once -/

theorem countInv_start (p : Plan) : CountInv p (start p) := by
  intro o
  cases hr : p.relay with
  | none =>
    simp [start, pendingMain, pendingTask, Plan.progAB, Plan.progBA, Plan.allOps, hr]
  | some r =>
    simp [start, pendingMain, pendingTask, Plan.progAB, Plan.progBA, Plan.allOps, hr]
    omega

theorem countInv_step {p : Plan} {s s1 : BridgeState} {t : Tid}
    (hw : WgInv p s) (h : CountInv p s) (hs : step p s t = some s1) : CountInv p s1 := by
  obtain ⟨pc, wg, ab, ba, tr⟩ := s
  intro o
  have ho := h o
  cases t with
  | main =>
    cases pc with
    | body todo =>
      cases todo with
      | nil =>
        cases hr : p.relay with
        | none =>
          simp only [step, hr, Option.some.injEq] at hs
          subst hs
          simpa [pendingMain] using ho
        | some r =>
          simp only [step, hr, Option.some.injEq] at hs
          subst hs
          simpa [pendingMain] using ho
      | cons o1 rest =>
        simp only [step, Option.some.injEq] at hs
        subst hs
        simp only [pendingMain, List.cons_append, List.count_cons, List.count_append,
          List.count_nil] at ho ⊢
        omega
    | addWg =>
      simp only [step, Option.some.injEq] at hs
      subst hs
      simpa [pendingMain] using ho
    | spawnAB =>
      cases hr : p.relay with
      | none => simp [step, hr] at hs
      | some r =>
        simp only [step, hr, Option.some.injEq] at hs
        subst hs
        simp only [WgInv] at hw
        obtain ⟨-, hab, -, -⟩ := hw
        subst hab
        simpa [pendingMain, pendingTask, Plan.progAB, hr] using ho
    | spawnBA =>
      cases hr : p.relay with
      | none => simp [step, hr] at hs
      | some r =>
        simp only [step, hr, Option.some.injEq] at hs
        subst hs
        simp only [WgInv] at hw
        obtain ⟨-, -, hba, -⟩ := hw
        subst hba
        simpa [pendingMain, pendingTask, Plan.progBA, hr] using ho
    | waiting =>
      by_cases hz : wg = 0
      · simp only [step, hz, if_true, Option.some.injEq] at hs
        subst hs
        simpa [pendingMain] using ho
      · simp [step, hz] at hs
    | unwinding todo =>
      cases todo with
      | nil =>
        simp only [step, Option.some.injEq] at hs
        subst hs
        simpa [pendingMain] using ho
      | cons o1 rest =>
        simp only [step, Option.some.injEq] at hs
        subst hs
        simp only [pendingMain, List.count_cons, List.count_append, List.count_nil] at ho ⊢
        omega
    | returned => simp [step] at hs
  | ab =>
    cases ab with
    | notStarted => simp [step, stepTask] at hs
    | finished => simp [step, stepTask] at hs
    | running todo =>
      cases todo with
      | cons o1 rest =>
        simp only [step, stepTask, Option.some.injEq] at hs
        subst hs
        simp only [pendingTask, List.count_cons, List.count_append, List.count_nil] at ho ⊢
        omega
      | nil =>
        by_cases hz : wg = 0
        · simp [step, stepTask, hz] at hs
        · simp only [step, stepTask, hz, if_false, Option.some.injEq] at hs
          subst hs
          simpa [pendingTask] using ho
  | ba =>
    cases ba with
    | notStarted => simp [step, stepTask] at hs
    | finished => simp [step, stepTask] at hs
    | running todo =>
      cases todo with
      | cons o1 rest =>
        simp only [step, stepTask, Option.some.injEq] at hs
        subst hs
        simp only [pendingTask, List.count_cons, List.count_append, List.count_nil] at ho ⊢
        omega
      | nil =>
        by_cases hz : wg = 0
        · simp [step, stepTask, hz] at hs
        · simp only [step, stepTask, hz, if_false, Option.some.injEq] at hs
          subst hs
          simpa [pendingTask] using ho

theorem inv_run {p : Plan} {sched : List Tid} {s s1 : BridgeState}
    (hw : WgInv p s) (h : CountInv p s) (hr : run p s sched = some s1) :
    WgInv p s1 ∧ CountInv p s1 := by
  induction sched generalizing s with
  | nil =>
    simp only [run, Option.some.injEq] at hr
    subst hr
    exact ⟨hw, h⟩
  | cons t sched ih =>
    simp only [run] at hr
    cases hs : step p s t with
    | none => simp [hs] at hr
    | some s2 =>
      simp only [hs] at hr
      exact ih (wgInv_step hw hs) (countInv_step hw h hs) hr

/-- When `handleConnection` has returned, its trace holds every operation of
the plan with the multiplicity it has there. -/
theorem returned_count {p : Plan} {sched : List Tid} {s : BridgeState}
    (hr : run p (start p) sched = some s) (hret : s.pc = .returned) (o : Op) :
    s.trace.count o = p.allOps.count o := by
  obtain ⟨hw, hc⟩ := inv_run (wgInv_start p) (countInv_start p) hr
  have ho := hc o
  obtain ⟨pc, wg, ab, ba, tr⟩ := s
  simp only at hret
  subst hret
  simp only [WgInv] at hw
  rcases hw with ⟨-, ⟨h1, h2, h3⟩ | ⟨h1, h2, h3⟩⟩
  · subst h1 h2
    simpa [pendingMain, pendingTask, Plan.progAB, Plan.progBA, h3] using ho
  · subst h1 h2
    simpa [pendingMain, pendingTask] using ho

theorem returned_mem {p : Plan} {sched : List Tid} {s : BridgeState}
    (hr : run p (start p) sched = some s) (hret : s.pc = .returned) (o : Op) :
    o ∈ s.trace ↔ o ∈ p.allOps := by
  rw [← List.count_pos_iff, ← List.count_pos_iff, returned_count hr hret]

/-! ## A bridge whose copies end does return -/

theorem run_append (p : Plan) (s : BridgeState) (a b : List Tid) :
    run p s (a ++ b) = (run p s a).bind (fun s1 => run p s1 b) := by
  induction a generalizing s with
  | nil => simp [run]
  | cons t a ih =>
    simp only [List.cons_append, run]
    cases step p s t with
    | none => simp
    | some s1 => simpa using ih s1

theorem run_body (p : Plan) (todo : List Op) (wg : Nat) (ab ba : TaskState) (tr : List Op) :
    run p ⟨.body todo, wg, ab, ba, tr⟩ (List.replicate todo.length .main) =
      some ⟨.body [], wg, ab, ba, tr ++ todo⟩ := by
  induction todo generalizing tr with
  | nil => simp [run]
  | cons o rest ih =>
    have h := ih (tr ++ [o])
    simpa [run, step, List.replicate_succ] using h

theorem run_unwinding (p : Plan) (todo : List Op) (wg : Nat) (ab ba : TaskState)
    (tr : List Op) :
    run p ⟨.unwinding todo, wg, ab, ba, tr⟩ (List.replicate todo.length .main ++ [.main]) =
      some ⟨.returned, wg, ab, ba, tr ++ todo⟩ := by
  induction todo generalizing tr with
  | nil => simp [run, step]
  | cons o rest ih =>
    have h := ih (tr ++ [o])
    simpa [run, step, List.replicate_succ] using h

theorem run_taskAB (p : Plan) (todo : List Op) (pc : MainPc) (wg : Nat) (ba : TaskState)
    (tr : List Op) :
    run p ⟨pc, wg + 1, .running todo, ba, tr⟩ (List.replicate todo.length .ab ++ [.ab]) =
      some ⟨pc, wg, .finished, ba, tr ++ todo⟩ := by
  induction todo generalizing tr with
  | nil => simp [run, step, stepTask]
  | cons o rest ih =>
    have h := ih (tr ++ [o])
    simpa [run, step, stepTask, List.replicate_succ] using h

theorem run_taskBA (p : Plan) (todo : List Op) (pc : MainPc) (wg : Nat) (ab : TaskState)
    (tr : List Op) :
    run p ⟨pc, wg + 1, ab, .running todo, tr⟩ (List.replicate todo.length .ba ++ [.ba]) =
      some ⟨pc, wg, ab, .finished, tr ++ todo⟩ := by
  induction todo generalizing tr with
  | nil => simp [run, step, stepTask]
  | cons o rest ih =>
    have h := ih (tr ++ [o])
    simpa [run, step, stepTask, List.replicate_succ] using h

/-- The schedule that lets `handleConnection` run up to its wait, then the
first task, then the second task, then `handleConnection` to its return. -/
theorem exists_return (p : Plan) :
    ∃ sched s, run p (start p) sched = some s ∧ s.pc = .returned ∧ s.trace = p.allOps := by
  cases hr : p.relay with
  | none =>
    refine ⟨List.replicate p.body.length .main ++ ([.main] ++
      (List.replicate p.deferred.length .main ++ [.main])),
      ⟨.returned, 0, .notStarted, .notStarted, p.allOps⟩, ?_, rfl, rfl⟩
    rw [run_append, start, run_body]
    dsimp only [Option.bind]
    rw [run_append]
    simp only [run, step, hr, Option.bind]
    rw [run_unwinding]
    simp [Plan.allOps, hr]
  | some r =>
    refine ⟨List.replicate p.body.length .main ++ ([.main, .main, .main, .main] ++
      ((List.replicate r.1.length .ab ++ [.ab]) ++ ((List.replicate r.2.length .ba ++ [.ba]) ++
        ([.main] ++ (List.replicate p.deferred.length .main ++ [.main]))))),
      ⟨.returned, 0, .finished, .finished, p.allOps⟩, ?_, rfl, rfl⟩
    rw [run_append, start, run_body]
    dsimp only [Option.bind]
    rw [run_append]
    simp only [run, step, hr, Option.bind, Nat.zero_add]
    rw [run_append, run_taskAB]
    dsimp only [Option.bind]
    rw [run_append, run_taskBA]
    dsimp only [Option.bind]
    rw [run_append]
    simp only [run, step, if_true, Option.bind]
    rw [run_unwinding]
    simp [Plan.allOps, hr]

/-! ## C4 -/

/-- C4: in every execution of the server and of the client `handleConnection`,
under every interleaving of the two relay goroutines, `wg.Wait()` can be passed
only in a state where the counter is zero and both copy tasks have finished,
and once the relay has been started `handleConnection` is past the wait (running
its deferred calls, or returned) only with both tasks finished. -/
theorem C4_wait_passed_only_after_both_directions (p : Plan)
    (_hp : (∃ env, p = serverHandleConnection env) ∨ (∃ env, p = clientHandleConnection env))
    (sched : List Tid) (s : BridgeState) (hrun : run p (start p) sched = some s) :
    (s.pc = .waiting → (step p s .main).isSome = true →
        s.wg = 0 ∧ s.ab = .finished ∧ s.ba = .finished) ∧
      (p.relay ≠ none → (s.pc = .returned ∨ ∃ todo, s.pc = .unwinding todo) →
        s.ab = .finished ∧ s.ba = .finished) := by
  have hw := wgInv_run (wgInv_start p) hrun
  clear hrun
  obtain ⟨pc, wg, ab, ba, tr⟩ := s
  constructor
  · intro hpc hstep
    simp only at hpc
    subst hpc
    simp only [WgInv] at hw
    by_cases hz : wg = 0
    · subst hz
      cases ab <;> cases ba <;> simp_all [TaskState.live]
    · simp [step, hz] at hstep
  · intro hrel hpc
    simp only at hpc
    rcases hpc with rfl | ⟨todo, rfl⟩
    · simp only [WgInv] at hw
      rcases hw with ⟨-, ⟨-, -, h3⟩ | ⟨h1, h2, -⟩⟩
      · exact absurd h3 hrel
      · exact ⟨h1, h2⟩
    · simp only [WgInv] at hw
      rcases hw with ⟨-, ⟨-, -, h3⟩ | ⟨h1, h2, -⟩⟩
      · exact absurd h3 hrel
      · exact ⟨h1, h2⟩

/-- The sample server bridge, Tor to QUIC finishing first, stands at its wait
with both tasks finished. -/
theorem C4_wait_witness :
    run (serverHandleConnection sampleServerEnv) (start (serverHandleConnection sampleServerEnv))
        sampleServerSchedToWait = some sampleServerAtWait ∧
      ((sampleServerAtWait.pc = .waiting →
          (step (serverHandleConnection sampleServerEnv) sampleServerAtWait .main).isSome = true →
          sampleServerAtWait.wg = 0 ∧ sampleServerAtWait.ab = .finished ∧
            sampleServerAtWait.ba = .finished) ∧
        (Plan.relay (serverHandleConnection sampleServerEnv) ≠ none →
          (sampleServerAtWait.pc = .returned ∨ ∃ todo, sampleServerAtWait.pc = .unwinding todo) →
          sampleServerAtWait.ab = .finished ∧ sampleServerAtWait.ba = .finished)) :=
  ⟨by decide, C4_wait_passed_only_after_both_directions (serverHandleConnection sampleServerEnv)
    (Or.inl ⟨sampleServerEnv, rfl⟩) sampleServerSchedToWait sampleServerAtWait (by decide)⟩

/-! ## The relay copies bytes unchanged (C10) -/

theorem written_append (h : Handle) (a b : List Op) :
    written h (a ++ b) = written h a ++ written h b := by
  induction a with
  | nil => simp [written]
  | cons o a ih =>
    cases o with
    | write d data =>
      by_cases hd : d = h
      · simp [written, hd, ih]
      · simp [written, hd, ih]
    | _ => simpa [written] using ih

theorem written_copyOps_same (h : Handle) (r : CopyResult) :
    written h (copyOps h r) = r.writes.flatten := by
  unfold copyOps
  induction r.writes with
  | nil => simp [written]
  | cons c cs ih => simp [written, ih]

theorem written_copyOps_other (h d : Handle) (r : CopyResult) (hd : d ≠ h) :
    written h (copyOps d r) = [] := by
  unfold copyOps
  induction r.writes with
  | nil => simp [written]
  | cons c cs ih => simp [written, ih, hd]

theorem written_reportOps (h : Handle) (site : ErrSite) (err : Option GoError) :
    written h (reportOps site err) = [] := by
  cases err with
  | none => simp [reportOps, written]
  | some e =>
    simp only [reportOps]
    split <;> simp [written]

theorem ioCopyLoop_initial (wr : Nat → WriteResult) (last : List Byte) (fin : ReadEnd)
    (k : Nat) (reads : List (List Byte)) :
    ∃ rest, reads.flatten ++ last = (ioCopyLoop wr last fin k reads).writes.flatten ++ rest := by
  induction reads generalizing k with
  | nil =>
    simp only [ioCopyLoop, List.flatten_nil, List.nil_append]
    split
    · cases wr k with
      | full => exact ⟨[], by simp⟩
      | failed n e => exact ⟨last.drop n, by simp⟩
    · exact ⟨last, by simp⟩
  | cons c cs ih =>
    simp only [ioCopyLoop]
    split
    · cases wr k with
      | full =>
        obtain ⟨rest, hrest⟩ := ih (k + 1)
        exact ⟨rest, by simp [List.append_assoc, hrest]⟩
      | failed n e =>
        refine ⟨c.drop n ++ (cs.flatten ++ last), ?_⟩
        simp only [List.flatten_cons, List.flatten_nil, List.append_nil, List.append_assoc]
        rw [← List.append_assoc (c.take n), List.take_append_drop]
    · rename_i hlen
      have hc : c = [] := by
        cases c with
        | nil => rfl
        | cons x xs => simp at hlen
      subst hc
      simpa using ih k

theorem ioCopyLoop_lossless (wr : Nat → WriteResult) (last : List Byte)
    (hw : ∀ k, wr k = .full) (k : Nat) (reads : List (List Byte)) :
    (ioCopyLoop wr last .eof k reads).writes.flatten = reads.flatten ++ last ∧
      (ioCopyLoop wr last .eof k reads).err = none := by
  induction reads generalizing k with
  | nil =>
    simp only [ioCopyLoop, hw, List.flatten_nil, List.nil_append]
    split
    · simp [endErr]
    · rename_i hlen
      cases last with
      | nil => simp [endErr]
      | cons x xs => simp at hlen
  | cons c cs ih =>
    simp only [ioCopyLoop, hw]
    split
    · obtain ⟨h1, h2⟩ := ih (k + 1)
      simp [h1, h2]
    · rename_i hlen
      have hc : c = [] := by
        cases c with
        | nil => rfl
        | cons x xs => simp at hlen
      subst hc
      simpa using ih k

theorem ioCopy_initial (wr : Nat → WriteResult) (src : Source) :
    ∃ rest, src.bytes = (ioCopy wr src).writes.flatten ++ rest :=
  ioCopyLoop_initial wr src.last src.fin 0 src.reads

theorem ioCopy_lossless (wr : Nat → WriteResult) (src : Source) (hw : ∀ k, wr k = .full)
    (hfin : src.fin = .eof) :
    (ioCopy wr src).writes.flatten = src.bytes ∧ (ioCopy wr src).err = none := by
  unfold ioCopy Source.bytes
  rw [hfin]
  exact ioCopyLoop_lossless wr src.last hw 0 src.reads

theorem written_serverQuicToTor (h : Handle) (r : CopyResult) :
    written h (serverQuicToTor r) = if h = .torConn then r.writes.flatten else [] := by
  by_cases hh : h = .torConn
  · subst hh
    simp [serverQuicToTor, written_append, written_copyOps_same, written_reportOps, written]
  · have hd : Handle.torConn ≠ h := fun e => hh e.symm
    simp [serverQuicToTor, written_append, written_copyOps_other _ _ _ hd, written_reportOps,
      written, hh]

theorem written_serverTorToQuic (h : Handle) (r : CopyResult) :
    written h (serverTorToQuic r) = if h = .quicStream then r.writes.flatten else [] := by
  by_cases hh : h = .quicStream
  · subst hh
    simp [serverTorToQuic, written_append, written_copyOps_same, written_reportOps, written]
  · have hd : Handle.quicStream ≠ h := fun e => hh e.symm
    simp [serverTorToQuic, written_append, written_copyOps_other _ _ _ hd, written_reportOps,
      written, hh]

theorem written_clientSocksToQuic (h : Handle) (r : CopyResult) :
    written h (clientSocksToQuic r) = if h = .quicStream then r.writes.flatten else [] := by
  by_cases hh : h = .quicStream
  · subst hh
    simp [clientSocksToQuic, written_append, written_copyOps_same, written_reportOps, written]
  · have hd : Handle.quicStream ≠ h := fun e => hh e.symm
    simp [clientSocksToQuic, written_append, written_copyOps_other _ _ _ hd, written_reportOps,
      written, hh]

theorem written_clientQuicToSocks (h : Handle) (r : CopyResult) :
    written h (clientQuicToSocks r) = if h = .socksConn then r.writes.flatten else [] := by
  by_cases hh : h = .socksConn
  · subst hh
    simp [clientQuicToSocks, written_append, written_copyOps_same, written_reportOps]
  · have hd : Handle.socksConn ≠ h := fun e => hh e.symm
    simp [clientQuicToSocks, written_append, written_copyOps_other _ _ _ hd, written_reportOps,
      hh]

theorem serverRelay_eq {env : ServerEnv} {ab ba : List Op}
    (h : (serverHandleConnection env).relay = some (ab, ba)) :
    ab = serverQuicToTor (ioCopy env.torWrites env.streamSrc) ∧
      ba = serverTorToQuic (ioCopy env.streamWrites env.torSrc) := by
  unfold serverHandleConnection at h
  cases h1 : env.acceptStream with
  | some e => simp [h1] at h
  | none =>
    cases h2 : env.dialTCP with
    | some e => simp [h1, h2] at h
    | none =>
      simp only [h1, h2, Option.some.injEq, Prod.mk.injEq] at h
      exact ⟨h.1.symm, h.2.symm⟩

theorem clientRelay_eq {env : ClientEnv} {ab ba : List Op}
    (h : (clientHandleConnection env).relay = some (ab, ba)) :
    ab = clientSocksToQuic (ioCopy env.streamWrites env.socksSrc) ∧
      ba = clientQuicToSocks (ioCopy env.socksWrites env.streamSrc) := by
  unfold clientHandleConnection at h
  cases h1 : env.dialAddr with
  | some e => simp [h1] at h
  | none =>
    cases h2 : env.openStreamSync with
    | some e => simp [h1, h2] at h
    | none =>
      cases h3 : env.grant with
      | some e => simp [h1, h2, h3] at h
      | none =>
        simp only [h1, h2, h3, Option.some.injEq, Prod.mk.injEq] at h
        exact ⟨h.1.symm, h.2.symm⟩

/-- C10: when the relay of a server or client bridge is started, each of the
four relay tasks writes to its destination exactly the bytes its source
delivered, in order, whenever the source ended with end-of-stream and no write
failed; a task writes to no other connection; and whatever happens, what a
task has written is an initial part of what its source delivered. -/
theorem C10_relay_copies_bytes_unchanged (senv : ServerEnv) (cenv : ClientEnv)
    (sab sba cab cba : List Op)
    (hs : (serverHandleConnection senv).relay = some (sab, sba))
    (hc : (clientHandleConnection cenv).relay = some (cab, cba)) :
    ((senv.streamSrc.fin = .eof → (∀ k, senv.torWrites k = .full) →
          written .torConn sab = senv.streamSrc.bytes) ∧
        (senv.torSrc.fin = .eof → (∀ k, senv.streamWrites k = .full) →
          written .quicStream sba = senv.torSrc.bytes) ∧
        (cenv.socksSrc.fin = .eof → (∀ k, cenv.streamWrites k = .full) →
          written .quicStream cab = cenv.socksSrc.bytes) ∧
        (cenv.streamSrc.fin = .eof → (∀ k, cenv.socksWrites k = .full) →
          written .socksConn cba = cenv.streamSrc.bytes)) ∧
      ((∀ h, h ≠ .torConn → written h sab = []) ∧
        (∀ h, h ≠ .quicStream → written h sba = []) ∧
        (∀ h, h ≠ .quicStream → written h cab = []) ∧
        (∀ h, h ≠ .socksConn → written h cba = [])) ∧
      ((∃ rest, senv.streamSrc.bytes = written .torConn sab ++ rest) ∧
        (∃ rest, senv.torSrc.bytes = written .quicStream sba ++ rest) ∧
        (∃ rest, cenv.socksSrc.bytes = written .quicStream cab ++ rest) ∧
        (∃ rest, cenv.streamSrc.bytes = written .socksConn cba ++ rest)) := by
  obtain ⟨rfl, rfl⟩ := serverRelay_eq hs
  obtain ⟨rfl, rfl⟩ := clientRelay_eq hc
  refine ⟨⟨?_, ?_, ?_, ?_⟩, ⟨?_, ?_, ?_, ?_⟩, ⟨?_, ?_, ?_, ?_⟩⟩
  · intro hfin hw
    simpa [written_serverQuicToTor] using (ioCopy_lossless _ _ hw hfin).1
  · intro hfin hw
    simpa [written_serverTorToQuic] using (ioCopy_lossless _ _ hw hfin).1
  · intro hfin hw
    simpa [written_clientSocksToQuic] using (ioCopy_lossless _ _ hw hfin).1
  · intro hfin hw
    simpa [written_clientQuicToSocks] using (ioCopy_lossless _ _ hw hfin).1
  · intro h hh
    simp [written_serverQuicToTor, hh]
  · intro h hh
    simp [written_serverTorToQuic, hh]
  · intro h hh
    simp [written_clientSocksToQuic, hh]
  · intro h hh
    simp [written_clientQuicToSocks, hh]
  · simpa [written_serverQuicToTor] using ioCopy_initial senv.torWrites senv.streamSrc
  · simpa [written_serverTorToQuic] using ioCopy_initial senv.streamWrites senv.torSrc
  · simpa [written_clientSocksToQuic] using ioCopy_initial cenv.streamWrites cenv.socksSrc
  · simpa [written_clientQuicToSocks] using ioCopy_initial cenv.socksWrites cenv.streamSrc

/-- The sample server and client bridges relay their bytes unchanged. -/
theorem C10_relay_witness :
    (serverHandleConnection sampleServerEnv).relay =
        some ([.write .torConn [1, 2], .write .torConn [3], .closeWrite .torConn],
          [.write .quicStream [4], .close .quicStream]) ∧
      (clientHandleConnection sampleClientEnv).relay =
        some ([.write .quicStream [5], .write .quicStream [6], .close .quicStream],
          [.write .socksConn [7, 8]]) ∧
      written .torConn [.write .torConn [1, 2], .write .torConn [3], .closeWrite .torConn] =
        sampleServerEnv.streamSrc.bytes ∧
      written .socksConn [.write .socksConn [7, 8]] = sampleClientEnv.streamSrc.bytes :=
  ⟨by decide, by decide,
    (C10_relay_copies_bytes_unchanged sampleServerEnv sampleClientEnv _ _ _ _ rfl rfl).1.1 rfl (fun _ => rfl),
    (C10_relay_copies_bytes_unchanged sampleServerEnv sampleClientEnv _ _ _ _ rfl rfl).1.2.2.2 rfl (fun _ => rfl)⟩

/-! ## Half-close per direction (C5) -/

theorem halfCloses_copyOps (dst : Handle) (r : CopyResult) :
    ∀ o ∈ copyOps dst r, halfCloses o = none ∧ fullCloses o = none := by
  intro o ho
  simp only [copyOps, List.mem_map] at ho
  obtain ⟨d, -, rfl⟩ := ho
  exact ⟨rfl, rfl⟩

theorem halfCloses_reportOps (site : ErrSite) (err : Option GoError) :
    ∀ o ∈ reportOps site err, halfCloses o = none ∧ fullCloses o = none := by
  intro o ho
  cases err with
  | none => simp [reportOps] at ho
  | some e =>
    simp only [reportOps] at ho
    split at ho
    · simp only [List.mem_singleton] at ho
      subst ho
      exact ⟨rfl, rfl⟩
    · simp at ho

/-- C5, evaluated on the code: for every outcome of the copy, the server
QUIC to Tor task ends with `CloseWrite` on the Tor connection, the server
Tor to QUIC task and the client SOCKS to QUIC task end with `Close` of the
stream send side, and no task issues a full close; but the client QUIC to
SOCKS task issues no half-close at all: it only writes and reports. -/
theorem C5_client_quic_to_socks_has_no_half_close (r : CopyResult) :
    ((serverQuicToTor r).getLast? = some (.closeWrite .torConn) ∧
        (serverTorToQuic r).getLast? = some (.close .quicStream) ∧
        (clientSocksToQuic r).getLast? = some (.close .quicStream)) ∧
      (∀ o, o ∈ serverQuicToTor r ∨ o ∈ serverTorToQuic r ∨ o ∈ clientSocksToQuic r ∨
        o ∈ clientQuicToSocks r → fullCloses o = none) ∧
      (∀ o ∈ clientQuicToSocks r, halfCloses o = none) ∧
      clientQuicToSocks (ioCopy healthy sampleClientEnv.streamSrc) =
        [.write .socksConn [7, 8]] := by
  refine ⟨⟨?_, ?_, ?_⟩, ?_, ?_, by decide⟩
  · simp [serverQuicToTor, List.getLast?_append]
  · simp [serverTorToQuic, List.getLast?_append]
  · simp [clientSocksToQuic, List.getLast?_append]
  · intro o ho
    simp only [serverQuicToTor, serverTorToQuic, clientSocksToQuic, clientQuicToSocks,
      List.mem_append, List.mem_singleton] at ho
    rcases ho with ((h | h) | h) | ((h | h) | h) | ((h | h) | h) | (h | h)
    all_goals first
      | exact (halfCloses_copyOps _ _ _ h).2
      | exact (halfCloses_reportOps _ _ _ h).2
      | (subst h; rfl)
  · intro o ho
    simp only [clientQuicToSocks, List.mem_append] at ho
    rcases ho with h | h
    · exact (halfCloses_copyOps _ _ _ h).1
    · exact (halfCloses_reportOps _ _ _ h).1

/-! ## The operations of a bridge in any reachable state -/

theorem reachable_count_le {p : Plan} {sched : List Tid} {s : BridgeState}
    (hr : run p (start p) sched = some s) (o : Op) :
    s.trace.count o ≤ p.allOps.count o := by
  have hc := (inv_run (wgInv_start p) (countInv_start p) hr).2 o
  omega

theorem reachable_not_mem {p : Plan} {sched : List Tid} {s : BridgeState}
    (hr : run p (start p) sched = some s) (o : Op) (ho : o ∉ p.allOps) : o ∉ s.trace := by
  have hle := reachable_count_le hr o
  rw [List.count_eq_zero_of_not_mem ho] at hle
  exact List.count_eq_zero.mp (Nat.le_zero.mp hle)

theorem reachable_no_relay {p : Plan} {sched : List Tid} {s : BridgeState}
    (hr : run p (start p) sched = some s) (hrel : p.relay = none) :
    s.ab = .notStarted ∧ s.ba = .notStarted := by
  have hw := wgInv_run (wgInv_start p) hr
  clear hr
  obtain ⟨pc, wg, ab, ba, tr⟩ := s
  cases pc <;> simp_all [WgInv]

theorem task_ops_kind (r : CopyResult) (o : Op)
    (ho : o ∈ serverQuicToTor r ∨ o ∈ serverTorToQuic r ∨ o ∈ clientSocksToQuic r ∨
      o ∈ clientQuicToSocks r) :
    (∃ d data, o = .write d data) ∨ (∃ site e, o = .logError site e) ∨
      (∃ h, o = .closeWrite h) ∨ (∃ h, o = .close h) := by
  have hcopy : ∀ d, o ∈ copyOps d r → ∃ d1 data, o = .write d1 data := by
    intro d hd
    simp only [copyOps, List.mem_map] at hd
    obtain ⟨data, -, rfl⟩ := hd
    exact ⟨d, data, rfl⟩
  have hrep : ∀ site, o ∈ reportOps site r.err → ∃ s1 e, o = .logError s1 e := by
    intro site hd
    cases hre : r.err with
    | none => simp [reportOps, hre] at hd
    | some e =>
      simp only [reportOps, hre] at hd
      split at hd
      · simp only [List.mem_singleton] at hd
        exact ⟨site, e, hd⟩
      · simp at hd
  simp only [serverQuicToTor, serverTorToQuic, clientSocksToQuic, clientQuicToSocks,
    List.mem_append, List.mem_singleton] at ho
  rcases ho with ((h | h) | h) | ((h | h) | h) | ((h | h) | h) | (h | h)
  all_goals first
    | exact Or.inl (hcopy _ h)
    | exact Or.inr (Or.inl (hrep _ h))
    | exact Or.inr (Or.inr (Or.inl ⟨_, h⟩))
    | exact Or.inr (Or.inr (Or.inr ⟨_, h⟩))

theorem reject_not_mem_task (r : CopyResult) :
    Op.reject ∉ clientSocksToQuic r ∧ Op.reject ∉ clientQuicToSocks r := by
  constructor
  · intro h
    rcases task_ops_kind r _ (Or.inr (Or.inr (Or.inl h))) with
      ⟨_, _, h1⟩ | ⟨_, _, h1⟩ | ⟨_, h1⟩ | ⟨_, h1⟩ <;> cases h1
  · intro h
    rcases task_ops_kind r _ (Or.inr (Or.inr (Or.inr h))) with
      ⟨_, _, h1⟩ | ⟨_, _, h1⟩ | ⟨_, h1⟩ | ⟨_, h1⟩ <;> cases h1

/-! ## Failure to open the obfuscated side (C8) -/

theorem client_relay_none (env : ClientEnv)
    (h : env.dialAddr ≠ none ∨ env.openStreamSync ≠ none) :
    (clientHandleConnection env).relay = none := by
  unfold clientHandleConnection
  cases h1 : env.dialAddr with
  | some e => rfl
  | none =>
    cases h2 : env.openStreamSync with
    | some e => rfl
    | none => simp [h1, h2] at h

theorem client_count_reject (env : ClientEnv) :
    (clientHandleConnection env).allOps.count .reject =
      if env.dialAddr ≠ none ∨ env.openStreamSync ≠ none then 1 else 0 := by
  unfold clientHandleConnection
  cases h1 : env.dialAddr with
  | some e => simp [Plan.allOps]
  | none =>
    cases h2 : env.openStreamSync with
    | some e => simp [Plan.allOps]
    | none =>
      cases h3 : env.grant with
      | some e => simp [Plan.allOps]
      | none =>
        have hr := reject_not_mem_task (ioCopy env.streamWrites env.socksSrc)
        have hr2 := reject_not_mem_task (ioCopy env.socksWrites env.streamSrc)
        simp [Plan.allOps, List.count_eq_zero_of_not_mem hr.1,
          List.count_eq_zero_of_not_mem hr2.2]

theorem client_grant_mem (env : ClientEnv) (err : Option GoError)
    (h : Op.grant err ∈ (clientHandleConnection env).allOps) :
    env.dialAddr = none ∧ env.openStreamSync = none := by
  unfold clientHandleConnection at h
  cases h1 : env.dialAddr with
  | some e => simp [h1, Plan.allOps] at h
  | none =>
    cases h2 : env.openStreamSync with
    | some e => simp [h1, h2, Plan.allOps] at h
    | none => exact ⟨rfl, rfl⟩

/-- C8: in every state an execution of the client `handleConnection` can
reach, if `quic.DialAddr` or `OpenStreamSync` returned an error then
`conn.Grant` has not been called, `conn.Reject` has been called at most once
and exactly once when the function has returned, and no relay task has been
started; and if `conn.Grant` has been called then both the dial and the stream
opening succeeded and `conn.Reject` has not been called. -/
theorem C8_open_failure_rejects_socks_request (env : ClientEnv) (sched : List Tid)
    (s : BridgeState)
    (hrun : run (clientHandleConnection env) (start (clientHandleConnection env)) sched =
      some s) :
    (env.dialAddr ≠ none ∨ env.openStreamSync ≠ none →
        (∀ err, Op.grant err ∉ s.trace) ∧ s.trace.count .reject ≤ 1 ∧
          (s.pc = .returned → s.trace.count .reject = 1) ∧
          (clientHandleConnection env).relay = none ∧ s.ab = .notStarted ∧
          s.ba = .notStarted) ∧
      (∀ err, Op.grant err ∈ s.trace →
        env.dialAddr = none ∧ env.openStreamSync = none ∧ Op.reject ∉ s.trace) := by
  have hgrant : ∀ err, Op.grant err ∈ s.trace →
      env.dialAddr = none ∧ env.openStreamSync = none := by
    intro err hmem
    by_contra hcon
    exact reachable_not_mem hrun _ (fun h => hcon (client_grant_mem env err h)) hmem
  constructor
  · intro hfail
    have hcount := client_count_reject env
    rw [if_pos hfail] at hcount
    have hrel := client_relay_none env hfail
    refine ⟨?_, ?_, ?_, hrel, reachable_no_relay hrun hrel⟩
    · intro err hmem
      obtain ⟨h1, h2⟩ := hgrant err hmem
      rcases hfail with h | h
      · exact h h1
      · exact h h2
    · have hle := reachable_count_le hrun .reject
      omega
    · intro hret
      rw [returned_count hrun hret, hcount]
  · intro err hmem
    obtain ⟨h1, h2⟩ := hgrant err hmem
    refine ⟨h1, h2, ?_⟩
    have hcount := client_count_reject env
    rw [if_neg (by simp [h1, h2])] at hcount
    exact reachable_not_mem hrun _ (List.count_eq_zero.mp hcount)

/-- A client bridge whose dial fails rejects the SOCKS request once and never
grants it. -/
theorem C8_dial_failure_witness :
    run (clientHandleConnection dialFailEnv) (start (clientHandleConnection dialFailEnv))
        [.main, .main, .main, .main, .main, .main] = some dialFailReturned ∧
      (∀ err, Op.grant err ∉ dialFailReturned.trace) ∧
      dialFailReturned.trace.count .reject = 1 :=
  ⟨by decide,
    ((C8_open_failure_rejects_socks_request dialFailEnv
      [.main, .main, .main, .main, .main, .main] dialFailReturned (by decide)).1
        (Or.inl (by decide))).1,
    ((C8_open_failure_rejects_socks_request dialFailEnv
      [.main, .main, .main, .main, .main, .main] dialFailReturned (by decide)).1
        (Or.inl (by decide))).2.2.1 rfl⟩

/-! ## Closing the connections of a bridge (C9) -/

theorem closedAfter_iff (tr : List Op) (h : Handle) :
    closedAfter tr h = true ↔
      (∃ o ∈ tr, fullCloses o = some h) ∨
        (h = .quicStream ∧ Op.closeWithError .quicConn ∈ tr) := by
  simp [closedAfter]

theorem fullCloses_task (r : CopyResult) (o : Op)
    (ho : o ∈ serverQuicToTor r ∨ o ∈ serverTorToQuic r ∨ o ∈ clientSocksToQuic r ∨
      o ∈ clientQuicToSocks r) : fullCloses o = none := by
  have hcopy : ∀ d, o ∈ copyOps d r → fullCloses o = none := fun d hd =>
    (halfCloses_copyOps d r o hd).2
  have hrep : ∀ site, o ∈ reportOps site r.err → fullCloses o = none := fun site hd =>
    (halfCloses_reportOps site r.err o hd).2
  simp only [serverQuicToTor, serverTorToQuic, clientSocksToQuic, clientQuicToSocks,
    List.mem_append, List.mem_singleton] at ho
  rcases ho with ((h | h) | h) | ((h | h) | h) | ((h | h) | h) | (h | h)
  all_goals first
    | exact hcopy _ h
    | exact hrep _ h
    | (subst h; rfl)

theorem server_closes (env : ServerEnv) :
    (∀ h ∈ serverOpened env, h ≠ .quicStream →
        ∃ o ∈ (serverHandleConnection env).allOps, fullCloses o = some h) ∧
      Op.closeWithError .quicConn ∈ (serverHandleConnection env).allOps ∧
      (∀ o ∈ (serverHandleConnection env).allOps, fullCloses o ≠ some .quicStream) := by
  unfold serverHandleConnection serverOpened
  cases h1 : env.acceptStream with
  | some e =>
    refine ⟨?_, by simp [Plan.allOps], ?_⟩
    · intro h hh hne
      simp only [List.mem_singleton] at hh
      subst hh
      exact ⟨.closeWithError .quicConn, by simp [Plan.allOps], rfl⟩
    · intro o ho
      simp only [Plan.allOps, List.append_nil, List.mem_append, List.mem_cons,
        List.mem_singleton, List.not_mem_nil, or_false] at ho
      rcases ho with (rfl | rfl) | rfl <;> simp [fullCloses]
  | none =>
    cases h2 : env.dialTCP with
    | some e =>
      refine ⟨?_, by simp [Plan.allOps], ?_⟩
      · intro h hh hne
        simp only [List.mem_cons, List.mem_singleton, List.not_mem_nil, or_false] at hh
        rcases hh with rfl | rfl
        · exact ⟨.closeWithError .quicConn, by simp [Plan.allOps], rfl⟩
        · exact absurd rfl hne
      · intro o ho
        simp only [Plan.allOps, List.append_nil, List.mem_append, List.mem_cons,
          List.mem_singleton, List.not_mem_nil, or_false] at ho
        rcases ho with (rfl | rfl | rfl) | rfl | rfl <;> simp [fullCloses]
    | none =>
      refine ⟨?_, by simp [Plan.allOps], ?_⟩
      · intro h hh hne
        simp only [List.mem_cons, List.mem_singleton, List.not_mem_nil, or_false] at hh
        rcases hh with rfl | rfl | rfl
        · exact ⟨.closeWithError .quicConn, by simp [Plan.allOps], rfl⟩
        · exact absurd rfl hne
        · exact ⟨.close .torConn, by simp [Plan.allOps], rfl⟩
      · intro o ho
        simp only [Plan.allOps, List.mem_append, List.mem_cons,
          List.mem_singleton, List.not_mem_nil, or_false] at ho
        rcases ho with ((rfl | rfl) | h | h) | rfl | rfl | rfl
        · simp [fullCloses]
        · simp [fullCloses]
        · rw [fullCloses_task _ o (Or.inl h)]
          simp
        · rw [fullCloses_task _ o (Or.inr (Or.inl h))]
          simp
        · simp [fullCloses]
        · simp [fullCloses]
        · simp [fullCloses]

theorem client_closes (env : ClientEnv) :
    (∀ h ∈ clientOpened env, h ≠ .quicStream →
        ∃ o ∈ (clientHandleConnection env).allOps, fullCloses o = some h) ∧
      (.quicStream ∈ clientOpened env →
        Op.closeWithError .quicConn ∈ (clientHandleConnection env).allOps) ∧
      (∀ o ∈ (clientHandleConnection env).allOps, fullCloses o ≠ some .quicStream) := by
  unfold clientHandleConnection clientOpened
  cases h1 : env.dialAddr with
  | some e =>
    refine ⟨?_, by simp, ?_⟩
    · intro h hh hne
      simp only [List.mem_singleton] at hh
      subst hh
      exact ⟨.close .socksConn, by simp [Plan.allOps], rfl⟩
    · intro o ho
      simp only [Plan.allOps, List.append_nil, List.mem_append, List.mem_cons,
        List.mem_singleton, List.not_mem_nil, or_false] at ho
      rcases ho with (rfl | rfl | rfl) | rfl <;> simp [fullCloses]
  | none =>
    cases h2 : env.openStreamSync with
    | some e =>
      refine ⟨?_, by simp, ?_⟩
      · intro h hh hne
        simp only [List.mem_cons, List.mem_singleton, List.not_mem_nil, or_false] at hh
        rcases hh with rfl | rfl
        · exact ⟨.close .socksConn, by simp [Plan.allOps], rfl⟩
        · exact ⟨.closeWithError .quicConn, by simp [Plan.allOps], rfl⟩
      · intro o ho
        simp only [Plan.allOps, List.append_nil, List.mem_append, List.mem_cons,
          List.mem_singleton, List.not_mem_nil, or_false] at ho
        rcases ho with (rfl | rfl | rfl | rfl) | rfl | rfl <;> simp [fullCloses]
    | none =>
      have hopen : ∀ h ∈ [Handle.socksConn, Handle.quicConn, Handle.quicStream],
          h ≠ .quicStream → ∀ ops : List Op, Op.closeWithError .quicConn ∈ ops →
            Op.close .socksConn ∈ ops → ∃ o ∈ ops, fullCloses o = some h := by
        intro h hh hne ops hq hsk
        simp only [List.mem_cons, List.mem_singleton, List.not_mem_nil, or_false] at hh
        rcases hh with rfl | rfl | rfl
        · exact ⟨_, hsk, rfl⟩
        · exact ⟨_, hq, rfl⟩
        · exact absurd rfl hne
      cases h3 : env.grant with
      | some e =>
        refine ⟨fun h hh hne => hopen h hh hne _ (by simp [Plan.allOps])
          (by simp [Plan.allOps]), fun _ => by simp [Plan.allOps], ?_⟩
        intro o ho
        simp only [Plan.allOps, List.append_nil, List.mem_append, List.mem_cons,
          List.mem_singleton, List.not_mem_nil, or_false] at ho
        rcases ho with (rfl | rfl | rfl | rfl) | rfl | rfl <;> simp [fullCloses]
      | none =>
        refine ⟨fun h hh hne => hopen h hh hne _ (by simp [Plan.allOps])
          (by simp [Plan.allOps]), fun _ => by simp [Plan.allOps], ?_⟩
        intro o ho
        simp only [Plan.allOps, List.mem_append, List.mem_cons,
          List.mem_singleton, List.not_mem_nil, or_false] at ho
        rcases ho with ((rfl | rfl | rfl) | h | h) | rfl | rfl
        · simp [fullCloses]
        · simp [fullCloses]
        · simp [fullCloses]
        · rw [fullCloses_task _ o (Or.inr (Or.inr (Or.inl h)))]
          simp
        · rw [fullCloses_task _ o (Or.inr (Or.inr (Or.inr h)))]
          simp
        · simp [fullCloses]
        · simp [fullCloses]

/-- C9 as the code has it: when the server or the client `handleConnection`
has returned, every handle it accepted or opened is closed; a full close has
been issued on each handle other than the QUIC stream (`CloseWithError` on the
QUIC connection, `Close` on the Tor or SOCKS connection); the QUIC stream is
closed by the `CloseWithError` of its connection, and no full close is ever
issued on the stream itself. -/
theorem C9_every_handle_closed_at_return (p : Plan) (opened : List Handle)
    (hp : (∃ env, p = serverHandleConnection env ∧ opened = serverOpened env) ∨
      (∃ env, p = clientHandleConnection env ∧ opened = clientOpened env))
    (sched : List Tid) (s : BridgeState) (hrun : run p (start p) sched = some s)
    (hret : s.pc = .returned) :
    (∀ h ∈ opened, closedAfter s.trace h = true) ∧
      (∀ h ∈ opened, h ≠ .quicStream → ∃ o ∈ s.trace, fullCloses o = some h) ∧
      (.quicStream ∈ opened → Op.closeWithError .quicConn ∈ s.trace) ∧
      (∀ o ∈ s.trace, fullCloses o ≠ some .quicStream) := by
  have hmem := returned_mem hrun hret
  have key : (∀ h ∈ opened, h ≠ .quicStream → ∃ o ∈ p.allOps, fullCloses o = some h) ∧
      (.quicStream ∈ opened → Op.closeWithError .quicConn ∈ p.allOps) ∧
      (∀ o ∈ p.allOps, fullCloses o ≠ some .quicStream) := by
    rcases hp with ⟨env, rfl, rfl⟩ | ⟨env, rfl, rfl⟩
    · obtain ⟨h1, h2, h3⟩ := server_closes env
      exact ⟨h1, fun _ => h2, h3⟩
    · exact client_closes env
  obtain ⟨k1, k2, k3⟩ := key
  have c2 : ∀ h ∈ opened, h ≠ .quicStream → ∃ o ∈ s.trace, fullCloses o = some h := by
    intro h hh hne
    obtain ⟨o, ho, hf⟩ := k1 h hh hne
    exact ⟨o, (hmem o).2 ho, hf⟩
  have c3 : .quicStream ∈ opened → Op.closeWithError .quicConn ∈ s.trace :=
    fun hq => (hmem _).2 (k2 hq)
  refine ⟨?_, c2, c3, fun o ho => k3 o ((hmem o).1 ho)⟩
  intro h hh
  rw [closedAfter_iff]
  by_cases hq : h = .quicStream
  · subst hq
    exact Or.inr ⟨rfl, c3 hh⟩
  · exact Or.inl (c2 h hh hq)

/-- The sample server bridge has closed all three of its handles at return. -/
theorem C9_closed_witness :
    run (serverHandleConnection sampleServerEnv) (start (serverHandleConnection sampleServerEnv))
        sampleServerSched = some sampleServerReturned ∧
      (∀ h ∈ serverOpened sampleServerEnv, closedAfter sampleServerReturned.trace h = true) :=
  ⟨by decide,
    (C9_every_handle_closed_at_return (serverHandleConnection sampleServerEnv)
      (serverOpened sampleServerEnv) (Or.inl ⟨sampleServerEnv, rfl, rfl⟩) sampleServerSched
      sampleServerReturned (by decide) rfl).1⟩

/-- C9 as stated fails: when `conn.Grant` fails in the client, `handleConnection`
has opened the QUIC stream and returns without any close call on the stream;
the only calls that close anything are `CloseWithError` on the QUIC connection
and `Close` on the SOCKS connection. -/
theorem C9_counterexample_no_full_close_on_stream :
    run (clientHandleConnection grantFailEnv) (start (clientHandleConnection grantFailEnv))
        [.main, .main, .main, .main, .main, .main, .main, .main] = some grantFailReturned ∧
      Handle.quicStream ∈ clientOpened grantFailEnv ∧
      (∀ o ∈ grantFailReturned.trace, fullCloses o ≠ some .quicStream) ∧
      Op.close .quicStream ∉ grantFailReturned.trace ∧
      ¬ (∀ h ∈ clientOpened grantFailEnv,
          ∃ o ∈ grantFailReturned.trace, fullCloses o = some h) := by
  decide

/-! ## Accept errors (C3) -/

theorem serverAcceptLoop_error (pre : List Nat) (cause : AcceptCause) (e : GoError)
    (rest : List AcceptResult) :
    serverAcceptLoop (pre.map .conn ++ .failed cause e :: rest) =
      ⟨acceptedOps pre ++ [.acceptCall, .logError e], true⟩ := by
  induction pre with
  | nil => simp [serverAcceptLoop, acceptedOps]
  | cons c cs ih => simp [serverAcceptLoop, acceptedOps, ih]

theorem clientAcceptLoop_error (pre : List Nat) (cause : AcceptCause) (e : GoError)
    (rest : List AcceptResult) :
    clientAcceptLoop (pre.map .conn ++ .failed cause e :: rest) =
      if e.netTimeout then
        ⟨acceptedOps pre ++ .acceptCall :: (clientAcceptLoop rest).trace,
          (clientAcceptLoop rest).stopped⟩
      else ⟨acceptedOps pre ++ [.acceptCall, .logError e], true⟩ := by
  induction pre with
  | nil =>
    by_cases h : e.netTimeout = true
    · simp [clientAcceptLoop, acceptedOps, h]
    · simp [clientAcceptLoop, acceptedOps, h]
  | cons c cs ih =>
    by_cases h : e.netTimeout = true
    · simp [clientAcceptLoop, acceptedOps, ih, h]
    · simp [clientAcceptLoop, acceptedOps, ih, h]

/-- C3 as the code has it: whatever the cause of an accept error (endpoint
closed or transient) and whatever was accepted before it, the server loop logs
the error and stops without another accept call; the client loop calls accept
again without logging when the error is a `net.Error` with `Timeout()` true,
and otherwise logs the error and stops without another accept call. -/
theorem C3_accept_error_stops_loop_unless_client_timeout (pre : List Nat)
    (cause : AcceptCause) (e : GoError) (rest : List AcceptResult) :
    serverAcceptLoop (pre.map .conn ++ .failed cause e :: rest) =
        ⟨acceptedOps pre ++ [.acceptCall, .logError e], true⟩ ∧
      clientAcceptLoop (pre.map .conn ++ .failed cause e :: rest) =
        (if e.netTimeout then
          ⟨acceptedOps pre ++ .acceptCall :: (clientAcceptLoop rest).trace,
            (clientAcceptLoop rest).stopped⟩
        else ⟨acceptedOps pre ++ [.acceptCall, .logError e], true⟩) :=
  ⟨serverAcceptLoop_error pre cause e rest, clientAcceptLoop_error pre cause e rest⟩

/-- C3 as stated fails: one transient accept error ends the server loop and
the client loop (accept is called once, the connection that would come next is
never accepted), and the client loop does not log the one kind of error after
which it does call accept again. -/
theorem C3_counterexample_transient_error_ends_loop :
    serverAcceptLoop [.failed .transient badHandshake, .conn 7] =
        ⟨[.acceptCall, .logError badHandshake], true⟩ ∧
      acceptCalls (serverAcceptLoop [.failed .transient badHandshake, .conn 7]) = 1 ∧
      clientAcceptLoop [.failed .transient badHandshake, .conn 7] =
        ⟨[.acceptCall, .logError badHandshake], true⟩ ∧
      acceptCalls (clientAcceptLoop [.failed .transient badHandshake, .conn 7]) = 1 ∧
      clientAcceptLoop [.failed .transient acceptTimeout, .conn 7] =
        ⟨[.acceptCall, .acceptCall, .spawnHandler 7, .acceptCall], false⟩ ∧
      ¬ (∀ (e : GoError) (rest : List AcceptResult),
          LoopOp.logError e ∈ (serverAcceptLoop (.failed .transient e :: rest)).trace ∧
            2 ≤ acceptCalls (serverAcceptLoop (.failed .transient e :: rest))) ∧
      ¬ (∀ (e : GoError) (rest : List AcceptResult),
          LoopOp.logError e ∈ (clientAcceptLoop (.failed .transient e :: rest)).trace ∧
            2 ≤ acceptCalls (clientAcceptLoop (.failed .transient e :: rest))) := by
  refine ⟨by decide, by decide, by decide, by decide, by decide, ?_, ?_⟩
  · intro h
    exact absurd (h badHandshake [.conn 7]).2 (by decide)
  · intro h
    exact absurd (h badHandshake [.conn 7]).2 (by decide)

/-! ## Startup: binding and registration (C6, C7) -/

theorem serverBindStep_from (st : Startup) (b : Bindaddr × ListenResult) :
    serverBindStep st b =
      ⟨st.trace ++ (serverBindStep .empty b).trace, st.wg + (serverBindStep .empty b).wg,
        st.listeners ++ (serverBindStep .empty b).listeners⟩ := by
  unfold serverBindStep
  split
  · simp [Startup.empty]
  · cases b.2 <;> simp [Startup.empty]

theorem serverBindLoop_from (st : Startup) (entries : List (Bindaddr × ListenResult)) :
    serverBindLoop st entries =
      ⟨st.trace ++ (serverBindLoop .empty entries).trace,
        st.wg + (serverBindLoop .empty entries).wg,
        st.listeners ++ (serverBindLoop .empty entries).listeners⟩ := by
  induction entries generalizing st with
  | nil => simp [serverBindLoop, Startup.empty]
  | cons b es ih =>
    have h1 : serverBindLoop st (b :: es) = serverBindLoop (serverBindStep st b) es := rfl
    have h2 : serverBindLoop .empty (b :: es) =
        serverBindLoop (serverBindStep .empty b) es := rfl
    rw [h1, h2, ih (serverBindStep st b), ih (serverBindStep .empty b)]
    rw [serverBindStep_from st b]
    simp [List.append_assoc, Nat.add_assoc]

theorem serverBindLoop_append (a b : List (Bindaddr × ListenResult)) :
    serverBindLoop .empty (a ++ b) =
      ⟨(serverBindLoop .empty a).trace ++ (serverBindLoop .empty b).trace,
        (serverBindLoop .empty a).wg + (serverBindLoop .empty b).wg,
        (serverBindLoop .empty a).listeners ++ (serverBindLoop .empty b).listeners⟩ := by
  have h : serverBindLoop .empty (a ++ b) = serverBindLoop (serverBindLoop .empty a) b := by
    simp [serverBindLoop, List.foldl_append]
  rw [h, serverBindLoop_from]

theorem clientBindStep_from (st : Startup) (b : String × ListenResult) :
    clientBindStep st b =
      ⟨st.trace ++ (clientBindStep .empty b).trace, st.wg + (clientBindStep .empty b).wg,
        st.listeners ++ (clientBindStep .empty b).listeners⟩ := by
  unfold clientBindStep
  split
  · simp [Startup.empty]
  · cases b.2 <;> simp [Startup.empty]

theorem clientBindLoop_from (st : Startup) (entries : List (String × ListenResult)) :
    clientBindLoop st entries =
      ⟨st.trace ++ (clientBindLoop .empty entries).trace,
        st.wg + (clientBindLoop .empty entries).wg,
        st.listeners ++ (clientBindLoop .empty entries).listeners⟩ := by
  induction entries generalizing st with
  | nil => simp [clientBindLoop, Startup.empty]
  | cons b es ih =>
    have h1 : clientBindLoop st (b :: es) = clientBindLoop (clientBindStep st b) es := rfl
    have h2 : clientBindLoop .empty (b :: es) =
        clientBindLoop (clientBindStep .empty b) es := rfl
    rw [h1, h2, ih (clientBindStep st b), ih (clientBindStep .empty b)]
    rw [clientBindStep_from st b]
    simp [List.append_assoc, Nat.add_assoc]

theorem serverBindLoop_cons (b : Bindaddr × ListenResult)
    (es : List (Bindaddr × ListenResult)) :
    serverBindLoop .empty (b :: es) =
      ⟨(serverBindStep .empty b).trace ++ (serverBindLoop .empty es).trace,
        (serverBindStep .empty b).wg + (serverBindLoop .empty es).wg,
        (serverBindStep .empty b).listeners ++ (serverBindLoop .empty es).listeners⟩ := by
  have h : serverBindLoop .empty (b :: es) = serverBindLoop (serverBindStep .empty b) es := rfl
  rw [h, serverBindLoop_from]

theorem clientBindLoop_cons (b : String × ListenResult)
    (es : List (String × ListenResult)) :
    clientBindLoop .empty (b :: es) =
      ⟨(clientBindStep .empty b).trace ++ (clientBindLoop .empty es).trace,
        (clientBindStep .empty b).wg + (clientBindLoop .empty es).wg,
        (clientBindStep .empty b).listeners ++ (clientBindLoop .empty es).listeners⟩ := by
  have h : clientBindLoop .empty (b :: es) = clientBindLoop (clientBindStep .empty b) es := rfl
  rw [h, clientBindLoop_from]

theorem serverBindLoop_mem_ok (entries : List (Bindaddr × ListenResult)) (y : Bindaddr)
    (ln : Listener) (hy : (y, ListenResult.ok ln) ∈ entries)
    (hm : y.MethodName = transportName) :
    PtOp.smethod y.MethodName ln.addr ∈ (serverBindLoop .empty entries).trace ∧
      PtOp.goAcceptLoop ln ∈ (serverBindLoop .empty entries).trace ∧
      ln ∈ (serverBindLoop .empty entries).listeners := by
  induction entries with
  | nil => simp at hy
  | cons b es ih =>
    rw [serverBindLoop_cons]
    simp only [List.mem_cons] at hy
    rcases hy with rfl | hy
    · simp [serverBindStep, hm, Startup.empty]
    · obtain ⟨h1, h2, h3⟩ := ih hy
      simp [h1, h2, h3]

theorem serverBindLoop_skip (pre post : List (Bindaddr × ListenResult)) (y : Bindaddr)
    (r : ListenResult) (hy : y.MethodName ≠ transportName) :
    serverBindLoop .empty (pre ++ (y, r) :: post) = serverBindLoop .empty (pre ++ post) := by
  have hstep : serverBindStep .empty (y, r) = ⟨[], 0, []⟩ := by
    simp [serverBindStep, hy, Startup.empty]
  rw [serverBindLoop_append, serverBindLoop_cons, hstep, serverBindLoop_append]
  simp

/-- C6 as the code has it: `main` attempts the bind only for an entry whose
method is the transport name.  When `quic.ListenAddr` fails for such an entry,
`main` emits for it exactly one `SmethodError` with the entry method and starts
no accept loop for it, and everything done for the entries before and after it
is what `main` does for them without the failing entry: each of them whose
method is the transport name and whose bind succeeds gets its `Smethod` and
its accept loop, and the wait group and the listener list are unchanged.  An
entry with any other method name is skipped whatever outcome is assigned to
it: `main` does exactly what it does without that entry. -/
theorem C6_bind_failure_is_isolated (pre post : List (Bindaddr × ListenResult))
    (b : Bindaddr) (err : GoError) (hb : b.MethodName = transportName) :
    (serverStartup (pre ++ (b, .failed err) :: post)).trace =
        (serverBindLoop .empty pre).trace ++
          [.smethodError b.MethodName ("failed to listen on QUIC: " ++ err.msg)] ++
          (serverBindLoop .empty post).trace ++ [.smethodsDone] ∧
      (serverStartup (pre ++ post)).trace =
        (serverBindLoop .empty pre).trace ++ (serverBindLoop .empty post).trace ++
          [.smethodsDone] ∧
      (serverStartup (pre ++ (b, .failed err) :: post)).listeners =
        (serverStartup (pre ++ post)).listeners ∧
      (serverStartup (pre ++ (b, .failed err) :: post)).wg = (serverStartup (pre ++ post)).wg ∧
      (∀ y ln, (y, ListenResult.ok ln) ∈ pre ++ post → y.MethodName = transportName →
        PtOp.smethod y.MethodName ln.addr ∈
            (serverStartup (pre ++ (b, .failed err) :: post)).trace ∧
          PtOp.goAcceptLoop ln ∈ (serverStartup (pre ++ (b, .failed err) :: post)).trace ∧
          ln ∈ (serverStartup (pre ++ (b, .failed err) :: post)).listeners) ∧
      (∀ (pre2 post2 : List (Bindaddr × ListenResult)) (y : Bindaddr) (r : ListenResult),
        y.MethodName ≠ transportName →
          serverStartup (pre2 ++ (y, r) :: post2) = serverStartup (pre2 ++ post2)) := by
  have hstep : serverBindStep .empty (b, .failed err) =
      ⟨[.smethodError b.MethodName ("failed to listen on QUIC: " ++ err.msg)], 0, []⟩ := by
    simp [serverBindStep, hb, Startup.empty]
  have hall : serverBindLoop .empty (pre ++ (b, .failed err) :: post) =
      ⟨(serverBindLoop .empty pre).trace ++
          ([.smethodError b.MethodName ("failed to listen on QUIC: " ++ err.msg)] ++
            (serverBindLoop .empty post).trace),
        (serverBindLoop .empty pre).wg + (0 + (serverBindLoop .empty post).wg),
        (serverBindLoop .empty pre).listeners ++ ([] ++ (serverBindLoop .empty post).listeners)⟩ := by
    rw [serverBindLoop_append, serverBindLoop_cons, hstep]
  have hrest := serverBindLoop_append pre post
  refine ⟨?_, ?_, ?_, ?_, ?_, ?_⟩
  · simp [serverStartup, hall]
  · simp [serverStartup, hrest]
  · simp [serverStartup, hall, hrest]
  · simp [serverStartup, hall, hrest]
  · intro y ln hy hm
    obtain ⟨h1, h2, h3⟩ := serverBindLoop_mem_ok (pre ++ post) y ln hy hm
    rw [hrest] at h1 h2 h3
    simp only [List.mem_append] at h1 h2 h3
    simp only [serverStartup, hall, List.mem_append, List.nil_append]
    refine ⟨?_, ?_, ?_⟩
    · rcases h1 with h | h
      · exact Or.inl (Or.inl h)
      · exact Or.inl (Or.inr (Or.inr h))
    · rcases h2 with h | h
      · exact Or.inl (Or.inl h)
      · exact Or.inl (Or.inr (Or.inr h))
    · exact h3
  · intro pre2 post2 y r hy
    simp only [serverStartup, serverBindLoop_skip pre2 post2 y r hy]

/-- Three entries with pairwise distinct method names, the one for the
transport on an address in use: one `SmethodError`, then `SmethodsDone`. -/
theorem C6_bind_failure_witness :
    (serverStartup ([(⟨"obfs4", "0.0.0.0:9001"⟩, .ok ⟨"0.0.0.0:9001"⟩)] ++
        (⟨"netshaper", "0.0.0.0:443"⟩, .failed addrInUse) ::
          [(⟨"meek", "0.0.0.0:9002"⟩, .ok ⟨"0.0.0.0:9002"⟩)])).trace =
        (serverBindLoop .empty [(⟨"obfs4", "0.0.0.0:9001"⟩, .ok ⟨"0.0.0.0:9001"⟩)]).trace ++
          [.smethodError "netshaper" ("failed to listen on QUIC: " ++ addrInUse.msg)] ++
          (serverBindLoop .empty [(⟨"meek", "0.0.0.0:9002"⟩, .ok ⟨"0.0.0.0:9002"⟩)]).trace ++
          [.smethodsDone] ∧
      serverStartup ([(⟨"obfs4", "0.0.0.0:9001"⟩, .ok ⟨"0.0.0.0:9001"⟩)] ++
        (⟨"netshaper", "0.0.0.0:443"⟩, .failed addrInUse) ::
          [(⟨"meek", "0.0.0.0:9002"⟩, .ok ⟨"0.0.0.0:9002"⟩)]) =
        ⟨[.smethodError "netshaper" ("failed to listen on QUIC: " ++ addrInUse.msg),
          .smethodsDone], 0, []⟩ :=
  ⟨(C6_bind_failure_is_isolated [(⟨"obfs4", "0.0.0.0:9001"⟩, .ok ⟨"0.0.0.0:9001"⟩)]
    [(⟨"meek", "0.0.0.0:9002"⟩, .ok ⟨"0.0.0.0:9002"⟩)] ⟨"netshaper", "0.0.0.0:443"⟩ addrInUse
    (by decide)).1, by decide⟩

/-- C6 as stated fails for entries whose method is not the transport name:
with the failure assigned to an `obfs4` entry `main` emits no `SmethodError`,
and next to a failing transport entry an `obfs4` entry with a successful
outcome gets neither its `Smethod` nor an accept loop. -/
theorem C6_counterexample_other_method_never_bound :
    serverStartup [(⟨"obfs4", "0.0.0.0:9001"⟩, .failed addrInUse)] =
        ⟨[.smethodsDone], 0, []⟩ ∧
      serverStartup [(⟨"netshaper", "0.0.0.0:443"⟩, .failed addrInUse),
          (⟨"obfs4", "0.0.0.0:9001"⟩, .ok ⟨"0.0.0.0:9001"⟩)] =
        ⟨[.smethodError "netshaper" ("failed to listen on QUIC: " ++ addrInUse.msg),
          .smethodsDone], 0, []⟩ ∧
      ¬ (∀ (pre post : List (Bindaddr × ListenResult)) (b : Bindaddr) (err : GoError),
          (serverStartup (pre ++ (b, .failed err) :: post)).trace =
            (serverBindLoop .empty pre).trace ++
              [.smethodError b.MethodName ("failed to listen on QUIC: " ++ err.msg)] ++
              (serverBindLoop .empty post).trace ++ [.smethodsDone]) ∧
      ¬ (∀ (pre post : List (Bindaddr × ListenResult)) (b : Bindaddr) (err : GoError)
          (y : Bindaddr) (ln : Listener), (y, ListenResult.ok ln) ∈ pre ++ post →
          PtOp.smethod y.MethodName ln.addr ∈
              (serverStartup (pre ++ (b, .failed err) :: post)).trace ∧
            PtOp.goAcceptLoop ln ∈ (serverStartup (pre ++ (b, .failed err) :: post)).trace) := by
  refine ⟨by decide, by decide, ?_, ?_⟩
  · intro h
    exact absurd (h [] [] ⟨"obfs4", "0.0.0.0:9001"⟩ addrInUse) (by decide)
  · intro h
    exact absurd (h [] [(⟨"obfs4", "0.0.0.0:9001"⟩, .ok ⟨"0.0.0.0:9001"⟩)]
      ⟨"netshaper", "0.0.0.0:443"⟩ addrInUse ⟨"obfs4", "0.0.0.0:9001"⟩ ⟨"0.0.0.0:9001"⟩
      (by decide)).1 (by decide)

/-! ### The shape of the registration (C7) -/

theorem registration_append (a b : List PtOp) :
    registration (a ++ b) = registration a ++ registration b := by
  simp [registration]

theorem registration_serverBindLoop (entries : List (Bindaddr × ListenResult)) :
    registration (serverBindLoop .empty entries).trace =
      (entries.filter (fun b => b.1.MethodName == transportName)).map serverAnnounce := by
  induction entries with
  | nil => simp [serverBindLoop, Startup.empty, registration]
  | cons b es ih =>
    rw [serverBindLoop_cons]
    simp only [registration_append, ih]
    by_cases hm : b.1.MethodName = transportName
    · have hf : List.filter (fun b => b.1.MethodName == transportName) (b :: es) =
          b :: List.filter (fun b => b.1.MethodName == transportName) es := by
        simp [List.filter_cons, hm]
      rw [hf]
      obtain ⟨⟨name, addr⟩, res⟩ := b
      cases res <;>
        simp_all [serverBindStep, Startup.empty, registration, serverAnnounce,
          PtOp.isAnnouncement, PtOp.isDone]
    · have hf : List.filter (fun b => b.1.MethodName == transportName) (b :: es) =
          List.filter (fun b => b.1.MethodName == transportName) es := by
        simp [List.filter_cons, hm]
      rw [hf]
      simp [serverBindStep, hm, Startup.empty, registration]

theorem registration_clientBindLoop (entries : List (String × ListenResult)) :
    registration (clientBindLoop .empty entries).trace =
      (entries.filter (fun m => m.1 == transportName)).map clientAnnounce := by
  induction entries with
  | nil => simp [clientBindLoop, Startup.empty, registration]
  | cons b es ih =>
    rw [clientBindLoop_cons]
    simp only [registration_append, ih]
    by_cases hm : b.1 = transportName
    · have hf : List.filter (fun m => m.1 == transportName) (b :: es) =
          b :: List.filter (fun m => m.1 == transportName) es := by
        simp [List.filter_cons, hm]
      rw [hf]
      obtain ⟨name, res⟩ := b
      cases res <;>
        simp_all [clientBindStep, Startup.empty, registration, clientAnnounce,
          PtOp.isAnnouncement, PtOp.isDone]
    · have hf : List.filter (fun m => m.1 == transportName) (b :: es) =
          List.filter (fun m => m.1 == transportName) es := by
        simp [List.filter_cons, hm]
      rw [hf]
      simp [clientBindStep, hm, Startup.empty, registration]

/-- C7 as the code has it: the registration messages of `main` are, for each
configured method whose name is the transport name, in configuration order,
exactly one announcement (`Smethod` or `SmethodError` on the server, `Cmethod`
with proxy kind "socks5" or `CmethodError` on the client), followed by exactly
one all-done announcement; a configured method with any other name gets no
announcement. -/
theorem C7_registration_shape (sentries : List (Bindaddr × ListenResult))
    (centries : List (String × ListenResult)) :
    registration (serverStartup sentries).trace =
        (sentries.filter (fun b => b.1.MethodName == transportName)).map serverAnnounce ++
          [.smethodsDone] ∧
      registration (clientStartup centries).trace =
        (centries.filter (fun m => m.1 == transportName)).map clientAnnounce ++
          [.cmethodsDone] := by
  constructor
  · simp only [serverStartup, registration_append, registration_serverBindLoop]
    simp [registration, PtOp.isAnnouncement, PtOp.isDone]
  · simp only [clientStartup, registration_append, registration_clientBindLoop]
    simp [registration, PtOp.isAnnouncement, PtOp.isDone]

/-- C7 as stated fails: a configured method whose name is not the transport
name gets no announcement at all, on the server and on the client; only the
all-done announcement is made. -/
theorem C7_counterexample_other_method_not_announced :
    serverStartup [(⟨"obfs4", "0.0.0.0:443"⟩, .ok ⟨"0.0.0.0:443"⟩)] =
        ⟨[.smethodsDone], 0, []⟩ ∧
      clientStartup [("obfs4", .ok ⟨"127.0.0.1:40000"⟩)] = ⟨[.cmethodsDone], 0, []⟩ ∧
      ¬ (∀ entries : List (Bindaddr × ListenResult),
          registration (serverStartup entries).trace =
            entries.map serverAnnounce ++ [.smethodsDone]) ∧
      ¬ (∀ entries : List (String × ListenResult),
          registration (clientStartup entries).trace =
            entries.map clientAnnounce ++ [.cmethodsDone]) := by
  refine ⟨by decide, by decide, ?_, ?_⟩
  · intro h
    exact absurd (h [(⟨"obfs4", "0.0.0.0:443"⟩, .ok ⟨"0.0.0.0:443"⟩)]) (by decide)
  · intro h
    exact absurd (h [("obfs4", .ok ⟨"127.0.0.1:40000"⟩)]) (by decide)

/-! ## Shutdown (C2) -/

theorem count_set_false (l : List Bool) (i : Nat) (h : l[i]? = some true) :
    (l.set i false).count true + 1 = l.count true := by
  induction l generalizing i with
  | nil => simp at h
  | cons b bs ih =>
    cases i with
    | zero =>
      simp only [List.getElem?_cons_zero, Option.some.injEq] at h
      subst h
      simp
    | succ j =>
      simp only [List.getElem?_cons_succ] at h
      have := ih j h
      simp only [List.set_cons_succ, List.count_cons]
      omega

theorem procInv_init (n : Nat) : ProcInv n (procInit n) := by
  simp [ProcInv, procInit, List.count_replicate]

theorem procInv_step {role : Role} {n : Nat} {s s1 : ProcState} {e : Event}
    (h : ProcInv n s) (hs : procStep role s e = some s1) : ProcInv n s1 := by
  obtain ⟨ph, wg, closed, loops, bridges⟩ := s
  obtain ⟨h1, h2, h3, h4, h5, h6⟩ := h
  simp only at h1 h2 h3 h4 h5 h6
  have hdrop : ∀ i, loops[i]? = some true → wg ≠ 0 →
      ProcInv n ⟨ph, wg - 1, closed, loops.set i false, bridges⟩ := by
    intro i hi hw
    have hc := count_set_false loops i hi
    refine ⟨by simp [h1], ?_, h3, h4, h5, ?_⟩
    · simp only
      omega
    · intro hp
      have := h6 hp
      omega
  cases e with
  | signal =>
    cases ph <;> simp [procStep] at hs
    subst hs
    exact ⟨h1, h2, h3, by simp, by simp, by simp⟩
  | mainStep =>
    cases ph with
    | awaitSignal => simp [procStep] at hs
    | closing =>
      simp only [procStep] at hs
      split at hs
      · rename_i hlt
        simp only [Option.some.injEq] at hs
        subst hs
        exact ⟨h1, h2, by simp only; omega, by simp, by simp, by simp⟩
      · rename_i hge
        simp only [Option.some.injEq] at hs
        subst hs
        exact ⟨h1, h2, h3, by simp, fun _ => by simp only; omega, by simp⟩
    | waiting =>
      simp only [procStep] at hs
      split at hs
      · rename_i hz
        simp only [Option.some.injEq] at hs
        subst hs
        exact ⟨h1, h2, h3, by simp, fun _ => h5 (Or.inl rfl), fun _ => hz⟩
      · simp at hs
    | exited => simp [procStep] at hs
  | accepted i =>
    simp only [procStep] at hs
    split at hs
    · simp only [Option.some.injEq] at hs
      subst hs
      exact ⟨h1, h2, h3, h4, h5, h6⟩
    · simp at hs
  | acceptFailed i err =>
    simp only [procStep] at hs
    split at hs
    · rename_i hg
      simp only [Bool.and_eq_true, bne_iff_ne, ne_eq, beq_iff_eq] at hg
      cases role with
      | server =>
        simp only at hs
        split at hs
        · simp at hs
        · rename_i hw
          simp only [Option.some.injEq] at hs
          subst hs
          exact hdrop i hg.2 hw
      | client =>
        simp only at hs
        split at hs
        · simp only [Option.some.injEq] at hs
          subst hs
          exact ⟨h1, h2, h3, h4, h5, h6⟩
        · split at hs
          · simp at hs
          · rename_i hw
            simp only [Option.some.injEq] at hs
            subst hs
            exact hdrop i hg.2 hw
    · simp at hs
  | bridgeReturned =>
    simp only [procStep] at hs
    split at hs
    · simp only [Option.some.injEq] at hs
      subst hs
      exact ⟨h1, h2, h3, h4, h5, h6⟩
    · simp at hs

theorem procInv_run {role : Role} {n : Nat} {sched : List Event} {s s1 : ProcState}
    (h : ProcInv n s) (hr : procRun role s sched = some s1) : ProcInv n s1 := by
  induction sched generalizing s with
  | nil =>
    simp only [procRun, Option.some.injEq] at hr
    subst hr
    exact h
  | cons e es ih =>
    simp only [procRun] at hr
    cases hs : procStep role s e with
    | none => simp [hs] at hr
    | some s2 =>
      simp only [hs] at hr
      exact ih (procInv_step h hs) hr

/-- C2 as the code has it: the wait group of `main` counts the accept loops
and not the bridges.  In every reachable state the counter is the number of
accept loops that have not returned, and when `main` has passed its final wait
and exited, every listener has been closed and every accept loop has
returned, whatever the number of `handleConnection` goroutines in flight. -/
theorem C2_exit_waits_for_accept_loops (role : Role) (n : Nat) (sched : List Event)
    (s : ProcState) (hrun : procRun role (procInit n) sched = some s) :
    s.wg = s.loopRunning.count true ∧
      (s.phase = .exited →
        s.closed = n ∧ s.loopRunning.length = n ∧ ∀ b ∈ s.loopRunning, b = false) := by
  obtain ⟨h1, h2, h3, h4, h5, h6⟩ := procInv_run (procInv_init n) hrun
  refine ⟨h2, ?_⟩
  intro hx
  refine ⟨h5 (Or.inr hx), h1, ?_⟩
  have hz : s.loopRunning.count true = 0 := by
    rw [← h2]
    exact h6 hx
  intro b hb
  cases b with
  | false => rfl
  | true => exact absurd hb (List.count_eq_zero.mp hz)

/-- In the sample shutdown the only accept loop has returned when `main` exits. -/
theorem C2_exit_witness :
    procRun .server (procInit 1) sampleShutdown = some ⟨.exited, 0, 1, [false], 1⟩ ∧
      ∀ b ∈ [false], b = false :=
  ⟨by decide,
    ((C2_exit_waits_for_accept_loops .server 1 sampleShutdown ⟨.exited, 0, 1, [false], 1⟩
      (by decide)).2 rfl).2.2⟩

/-- C2 as stated fails: with one listener and one bridge in flight when the
signal arrives, `main` closes the listener, the accept loop returns, `main`
passes its final wait and exits while the bridge is still running; so on the
server, so on the client. -/
theorem C2_counterexample_exit_with_running_bridge :
    procRun .server (procInit 1) sampleShutdown = some ⟨.exited, 0, 1, [false], 1⟩ ∧
      procRun .client (procInit 1) sampleShutdown = some ⟨.exited, 0, 1, [false], 1⟩ ∧
      ¬ (∀ (role : Role) (n : Nat) (sched : List Event) (s : ProcState),
          procRun role (procInit n) sched = some s → s.phase = .exited → s.bridges = 0) := by
  refine ⟨by decide, by decide, ?_⟩
  intro h
  exact absurd (h .server 1 sampleShutdown ⟨.exited, 0, 1, [false], 1⟩ (by decide) rfl)
    (by decide)

/-- The wait group `main` waits on after startup counts the bound listeners. -/
theorem startup_wg_eq_listeners (sentries : List (Bindaddr × ListenResult))
    (centries : List (String × ListenResult)) :
    (serverStartup sentries).wg = (serverStartup sentries).listeners.length ∧
      (clientStartup centries).wg = (clientStartup centries).listeners.length := by
  constructor
  · simp only [serverStartup]
    induction sentries with
    | nil => simp [serverBindLoop, Startup.empty]
    | cons b es ih =>
      rw [serverBindLoop_cons]
      simp only [List.length_append, ih]
      unfold serverBindStep
      split
      · simp [Startup.empty]
      · cases b.2 <;> simp [Startup.empty]
  · simp only [clientStartup]
    induction centries with
    | nil => simp [clientBindLoop, Startup.empty]
    | cons b es ih =>
      rw [clientBindLoop_cons]
      simp only [List.length_append, ih]
      unfold clientBindStep
      split
      · simp [Startup.empty]
      · cases b.2 <;> simp [Startup.empty]

end NetShaper
